import Mathlib

/-!
Verification development for the HADLoC toolchain (assembler pipeline and
instruction-set emulator).  Python sources are embedded shallowly:

* Python values flowing through the assembler (token values, instruction
  elements, constants) are modelled by the type PyVal below; the wrapper
  classes PositionObject / CodeObject / String / PositionedString compare,
  hash and operate by their underlying value, so only the value (plus, for
  the lexer, per-character coordinates) is represented.
* Machine integers are Nat / Int with explicit mod 2^w where overflow
  matters.
* Fallible code returns Except: a Python exception (CompilerException or a
  runtime error such as TypeError) becomes an error value.
-/

namespace HADLoC

/-- A Python value appearing in tokens, expressions and instruction lists.
s is a plain string (also standing for the string-valued text wrappers,
whose comparisons all delegate to the text); i is a plain int, as
produced by the label resolver; p is a PositionObject wrapping an int
(cstring.py lines 409-605): the tokenizer stores every integer literal
this way, and the wrapper defines eq/lt/and/or/add/sub/invert/neg -- which
unwrap or rewrap -- but no right-hand or reflected operators and no
shifts, so 0x80 | p and p >> 8 raise TypeError; co is the CodeObject
built by parse_primary for a defined constant (parser.py line 337):
CodeObject(constants[value].value, value.text) against the constructor
signature (text, value) (cstring.py line 622), so its text field holds
the stored constant and its value field holds the identifier the
constant was referenced by; noneV is Python None. -/
inductive PyVal where
  | s (x : String)
  | i (n : Int)
  | p (n : Int)
  | co (txt : PyVal) (val : PyVal)
  | noneV
deriving DecidableEq

/-- Errors: CompilerException (identified by its kind string, e.g. Syntax,
Argument, Name, Value, Encoding) or an uncaught Python runtime error
(TypeError, IndexError, AttributeError, ...); fuelOut marks exhaustion of
the fuel that bounds loops of the embedding. -/
inductive Err where
  | compiler (kind : String)
  | pyErr (name : String)
  | fuelOut
deriving DecidableEq

instance {ε α : Type} [DecidableEq ε] [DecidableEq α] : DecidableEq (Except ε α) := fun x y =>
  match x, y with
  | .ok a, .ok b =>
    if h : a = b then .isTrue (h ▸ rfl) else .isFalse (fun hh => h (Except.ok.inj hh))
  | .error a, .error b =>
    if h : a = b then .isTrue (h ▸ rfl) else .isFalse (fun hh => h (Except.error.inj hh))
  | .ok _, .error _ => .isFalse (fun hh => Except.noConfusion hh)
  | .error _, .ok _ => .isFalse (fun hh => Except.noConfusion hh)

/-! ## Encoder (src/assembler/codewriter.py) -/

/-- Lookup table for register codes (codewriter.py line 58). -/
def registers (r : String) : Option Nat :=
  if r = "X" then some 0x00
  else if r = "L" then some 0x01
  else if r = "I" then some 0x02
  else if r = "H" then some 0x02
  else if r = "M" then some 0x03
  else if r = "Y" then some 0x03
  else none

def gtBits : Nat := 0x09
def ltBits : Nat := 0x0C
def eqBits : Nat := 0x0A
def jmpBits : Nat := 0x10

/-- The fixed (argument-free) instructions (codewriter.py lines 64-66). -/
def fixedValue (name : String) : Option Nat :=
  if name = "jmp" then some (jmpBits ||| ltBits ||| eqBits ||| gtBits)
  else if name = "jlt" then some (jmpBits ||| ltBits)
  else if name = "jeq" then some (jmpBits ||| eqBits)
  else if name = "jgt" then some (jmpBits ||| gtBits)
  else if name = "jle" then some (jmpBits ||| ltBits ||| eqBits)
  else if name = "jge" then some (jmpBits ||| eqBits ||| gtBits)
  else if name = "jne" then some (jmpBits ||| ltBits ||| gtBits)
  else if name = "nop" then some 0x01
  else if name = "jcs" then some (jmpBits ||| 0x02)
  else if name = "jis" then some (jmpBits ||| 0x04)
  else if name = "hlt" then some 0x00
  else if name = "ics" then some 0x03
  else if name = "icc" then some 0x02
  else none

/-- Opcodes of the unary ALU instructions when the argument is X
(codewriter.py line 68). -/
def unaryX (name : String) : Option Nat :=
  if name = "not" then some 0x0
  else if name = "neg" then some 0x8
  else if name = "inc" then some 0xC
  else if name = "dec" then some 0x4
  else none

/-- Opcodes of the unary ALU instructions when the argument is L or M
(codewriter.py line 69). -/
def unaryLM (name : String) : Option Nat :=
  if name = "not" then some 0x3
  else if name = "neg" then some 0xF
  else if name = "inc" then some 0xB
  else if name = "dec" then some 0x7
  else none

/-- Opcodes of the commutative binary ALU instructions
(codewriter.py line 70). -/
def binaryOp (name : String) : Option Nat :=
  if name = "and" then some 0xA
  else if name = "or" then some 0xE
  else if name = "add" then some 0x9
  else none

/-- The names recognised by arithmetic_value (codewriter.py line 71). -/
def arithNames : List String := ["add", "sub", "or", "and", "not", "neg", "inc", "dec"]

/-- Dictionary lookups keyed by a Python value: only string keys are present,
so an int or None key misses (Python hash/eq compare the raw value). -/
def lookS (f : String → Option Nat) : PyVal → Option Nat
  | .s x => f x
  | _ => none

/-- Membership of a Python value in a list of string literals. -/
def memS (v : PyVal) (l : List String) : Bool :=
  l.any fun x => v = .s x

/-- arithmetic_value (codewriter.py lines 133-183): returns none when the
instruction is not an arithmetic/logic command, otherwise the byte or the
raised CompilerException. -/
def arithmeticValue (instruction : List PyVal) : Option (Except Err Int) :=
  match instruction.head? with
  | none => some (.error (.pyErr ("IndexError")))
  | some cmd =>
    if ¬ memS cmd arithNames then none
    else some (do
      match instruction.get? 1, instruction.get? 2 with
      | some dst, some arg1 =>
        if ¬ memS dst ["X", "L"] then
          .error (.compiler ("Argument"))
        else if memS arg1 ["I", "Y", "H"] then
          .error (.compiler ("Argument"))
        else
          let x : Nat := if dst = .s ("X") then 1 else 0
          let m : Nat := if arg1 = .s ("M") then 1 else 0
          if (lookS unaryX cmd).isSome then
            let opcode := if arg1 = .s ("X") then (lookS unaryX cmd).getD 0
                          else (lookS unaryLM cmd).getD 0
            .ok ((0x40 ||| (x <<< 5) ||| (m <<< 4) ||| opcode : Nat) : Int)
          else
            match instruction.get? 3 with
            | none => .error (.pyErr ("IndexError"))
            | some arg2 =>
              if memS arg2 ["I", "Y", "H"] then
                .error (.compiler ("Argument"))
              else
                let m := if arg2 = .s ("M") then 1 else m
                if arg1 = .s ("X") ∧ arg2 = .s ("X") then
                  .error (.compiler ("Argument"))
                else if arg1 ≠ .s ("X") ∧ arg2 ≠ .s ("X") then
                  .error (.compiler ("Argument"))
                else
                  let opcode := if cmd = .s ("sub") then
                                  (if arg1 = .s ("X") then 0xD else 0x5)
                                else (lookS binaryOp cmd).getD 0
                  .ok ((0x40 ||| (x <<< 5) ||| (m <<< 4) ||| opcode : Nat) : Int)
      | _, _ => .error (.pyErr ("IndexError")))

/-- instruction_value (codewriter.py lines 74-130): the 8-bit machine-code
value of one instruction.  Note two faithful transliterations of source
quirks: for ldb, Python computes 0x80 | instruction[1] (line 93), which is
a TypeError whenever the argument is not a plain int -- an unresolved
label string, but also every PositionObject-wrapped literal the parser
emits, because int.__or__ returns NotImplemented on it and PositionObject
defines no __ror__; only the plain ints substituted by the label resolver
encode.  For opd/opi the Python membership test is over the list
expression picking Y-or-H, which evaluates to the one-element list
containing Y only, so H is not rejected. -/
def instructionValue (instruction : List PyVal) : Except Err Int :=
  match instruction.head? with
  | none => .error (.pyErr ("IndexError"))
  | some command =>
    match lookS fixedValue command with
    | some v => .ok (v : Int)
    | none =>
      if command = .s ("ldb") then
        match instruction.get? 1 with
        | some (.i n) => .ok (Int.lor 0x80 n)
        | some _ => .error (.pyErr ("TypeError"))
        | none => .error (.pyErr ("IndexError"))
      else if command = .s ("mov") then
        match instruction.get? 1, instruction.get? 2 with
        | some src, some dst =>
          if dst = .s ("I") then .error (.compiler ("Argument"))
          else if src = .s ("H") then .error (.compiler ("Argument"))
          else if dst = .s ("M") ∧ src = .s ("M") then .ok 0x01
          else if src = .s ("Y") ∧ dst = .s ("Y") then .ok 0x01
          else
            let sBit : Nat := if dst = .s ("M") ∨ src = .s ("Y") then 1 else 0
            match lookS registers dst, lookS registers src with
            | some rd, some rs =>
              .ok ((0x20 ||| (sBit <<< 4) ||| (rd <<< 2) ||| rs : Nat) : Int)
            | _, _ => .error (.pyErr ("KeyError"))
        | _, _ => .error (.pyErr ("IndexError"))
      else if command = .s ("opd") ∨ command = .s ("opi") then
        match instruction.get? 1 with
        | none => .error (.pyErr ("IndexError"))
        | some arg =>
          if memS arg ["Y"] then .error (.compiler ("Argument"))
          else
            let d : Nat := if command = .s ("opd") then 1 else 0
            match lookS registers arg with
            | some r => .ok ((0x08 ||| (d <<< 2) ||| r : Nat) : Int)
            | none => .error (.pyErr ("KeyError"))
      else
        match arithmeticValue instruction with
        | some r => r
        | none => .error (.compiler ("Encoding"))

/-! ## Parser (src/assembler/parser.py)

A token is a pair (type, value).  Parser state mirrors the attributes of the
Parser class; the warnings list is omitted (warnings are accumulated text
that never affects control flow or any output the claims mention). -/

structure PState where
  tokens : List (List (String × PyVal))
  line : Nat
  index : Nat
  labels : List (PyVal × Nat)
  constants : List (PyVal × PyVal)
  instructions : List (List PyVal)
  usedLabels : List PyVal
  usedConstants : List PyVal
deriving DecidableEq

/-- Association-list lookup keyed by a Python value (dict lookup). -/
def alook {β : Type} (l : List (PyVal × β)) (k : PyVal) : Option β :=
  (l.find? fun p => decide (p.1 = k)).map (fun p => p.2)

/-- The token list of the current line.  Python raises IndexError when
self.line is out of range; every such run aborts anyway, so an out-of-range
line reads as an empty line here. -/
def tokLine (st : PState) : List (String × PyVal) := st.tokens.getD st.line []

/-- The token at the given offset from the current index (Parser.type /
Parser.value, lines 102-132).  Offsets past the end of the line give none;
negative raw indices wrap as in Python. -/
def tokAt (st : PState) (offset : Int) : Option (String × PyVal) :=
  let line := tokLine st
  let j : Int := (st.index : Int) + offset
  if (line.length : Int) ≤ j then none
  else
    let k : Int := if j < 0 then j + (line.length : Int) else j
    if k < 0 then none else line.get? k.toNat

/-- Parser.type: the token type at the offset, or the empty string. -/
def tokType (st : PState) (offset : Int) : String :=
  ((tokAt st offset).map fun p => p.1).getD ""

/-- Parser.value: the token value at the offset, or None. -/
def tokValue (st : PState) (offset : Int) : PyVal :=
  ((tokAt st offset).map fun p => p.2).getD .noneV

/-- Python list.insert: indices past the end append. -/
def pyInsert {α : Type} (l : List α) (idx : Nat) (a : α) : List α :=
  l.take idx ++ a :: l.drop idx

/-- Unary minus on an expression value. PositionObject.__neg__ rewraps the
negated int; a plain int negates; CodeObject.__neg__ negates its value
field, which for the constants built by parse_primary is an identifier
string, so Python raises TypeError; so does negating any other
non-numeric value. -/
def pyNeg : PyVal → Except Err PyVal
  | .i n => .ok (.i (-n))
  | .p n => .ok (.p (-n))
  | _ => .error (.pyErr ("TypeError"))

/-- Bitwise complement on an expression value: for a Python int n the
result is -n - 1; PositionObject.__invert__ rewraps it; on the
string-valued CodeObject constants and other non-ints Python raises
TypeError. -/
def pyInvert : PyVal → Except Err PyVal
  | .i n => .ok (.i (-n - 1))
  | .p n => .ok (.p (-n - 1))
  | _ => .error (.pyErr ("TypeError"))

/-- Selector for the mutually recursive expression parsers of parser.py
(they recurse through one another, so they are embedded as one
fuel-recursive function dispatching on this tag; the unary tag carries the
minus and invert flags of parse_unary_expression). -/
inductive ExprKind where
  | orE
  | andE
  | arithE
  | unaryE (minus invert : Bool)
  | primE
deriving DecidableEq

/-- The expression grammar of parser.py lines 238-370, one branch per
source function.

orE is parse_or_expression (lines 281-288), andE parse_and_expression
(lines 290-297) and arithE parse_arithmetic_expression (lines 299-311):
each parses its sub-expression and, when the following token is its
operator symbol, Python enters a loop body that always raises (reading
.text of a PositionObject is an AttributeError, and the in-place operator
of the wrapper classes applies the operator a second time to the wrapper
itself, a TypeError), so an operator token aborts the parse, modelled as a
single error.

unaryE is parse_unary_expression (lines 313-328): toggle the minus and
invert flags over a prefix of minus and bang tokens, then negate and
invert the primary accordingly.

primE is parse_primary (lines 330-370): a defined constant builds
CodeObject(constants[value].value, value.text) against the constructor
signature (text, value), so the expression value becomes a CodeObject
whose value field is the identifier, not the stored constant; an in-range
integer literal is returned as the PositionObject the tokenizer stored (the
range comparisons unwrap); a parenthesis wraps the or-expression; anything
else fails. -/
def parseExpr (fuel : Nat) (k : ExprKind) (st : PState) :
    Except Err (PyVal × PState) :=
  match fuel with
  | 0 => .error .fuelOut
  | fuel + 1 =>
    match k with
    | .orE =>
      match parseExpr fuel .andE st with
      | .error e => .error e
      | .ok (v, st1) =>
        if tokValue st1 0 = .s ("|") then .error (.pyErr ("TypeError"))
        else .ok (v, st1)
    | .andE =>
      match parseExpr fuel .arithE st with
      | .error e => .error e
      | .ok (v, st1) =>
        if tokValue st1 0 = .s ("&") then .error (.pyErr ("TypeError"))
        else .ok (v, st1)
    | .arithE =>
      match parseExpr fuel (.unaryE false false) st with
      | .error e => .error e
      | .ok (v, st1) =>
        if tokValue st1 0 = .s ("+") ∨ tokValue st1 0 = .s ("-") then
          .error (.pyErr ("TypeError"))
        else .ok (v, st1)
    | .unaryE minus invert =>
      if tokValue st 0 = .s ("-") then
        parseExpr fuel (.unaryE (!minus) invert) {st with index := st.index + 1}
      else if tokValue st 0 = .s ("!") then
        parseExpr fuel (.unaryE minus (!invert)) {st with index := st.index + 1}
      else
        match parseExpr fuel .primE st with
        | .error e => .error e
        | .ok (v, st1) =>
          match (if minus then pyNeg v else .ok v) with
          | .error e => .error e
          | .ok v1 =>
            match (if invert then pyInvert v1 else .ok v1) with
            | .error e => .error e
            | .ok v2 => .ok (v2, st1)
    | .primE =>
      let value := tokValue st 0
      if tokType st 0 = "identifier" then
        match alook st.constants value with
        | some stored =>
          .ok (.co stored value, {st with index := st.index + 1,
                                          usedConstants := st.usedConstants ++ [value]})
        | none => .error (.compiler ("Name"))
      else if tokType st 0 = "integer" then
        match value with
        | .p n =>
          if ¬(-32768 ≤ n ∧ n < 65536) then .error (.compiler ("Value"))
          else .ok (.p n, {st with index := st.index + 1})
        | .i n =>
          if ¬(-32768 ≤ n ∧ n < 65536) then .error (.compiler ("Value"))
          else .ok (.i n, {st with index := st.index + 1})
        | _ => .error (.pyErr ("TypeError"))
      else if value = .s ("(") then
        match parseExpr fuel .orE {st with index := st.index + 1} with
        | .error e => .error e
        | .ok (v, st1) =>
          if tokValue st1 0 = .s (")") then
            .ok (v, {st1 with index := st1.index + 1})
          else .error (.compiler ("Syntax"))
      else .error (.compiler ("Syntax"))

/-- parse_or_expression entry point. -/
def parseOrExpr (fuel : Nat) (st : PState) : Except Err (PyVal × PState) :=
  parseExpr fuel .orE st

/-- parse_constant_expression (parser.py lines 238-279): an identifier that
is not a defined constant is a label reference and is returned as is; any
other expression evaluates through the or-expression grammar. -/
def parseConstantExpression (fuel : Nat) (st : PState) :
    Except Err ((String × PyVal) × PState) :=
  if tokType st 0 = "identifier" ∧ (alook st.constants (tokValue st 0)).isNone then
    let st1 : PState := {st with usedLabels := st.usedLabels ++ [tokValue st 0],
                                 index := st.index + 1}
    .ok ((tokType st1 (-1), tokValue st1 (-1)), st1)
  else
    match parseOrExpr fuel st with
    | .error e => .error e
    | .ok (v, st1) => .ok ((("integer" : String), v), st1)

/-- write_load (parser.py lines 429-503).  For an identifier the placeholder
[instr, name] is inserted; for an integer the source computes
value & 0xFF if instr == ldb else (value >> 8) & 0xFF (line 485).  The
parser only ever reaches this with a PositionObject-wrapped literal (or a
constant CodeObject): for ldu the shift raises TypeError at once, since
neither wrapper has __rshift__ and int has no matching reflected method;
for ldb the wrapper's __and__ rewraps the masked byte, the comparisons
unwrap, and either one load of the wrapped byte (eighth bit clear) or the
load of its wrapped masked complement followed by not L L is inserted
(Python inserts the not instruction first, then the load at the same
index, so the load ends up first).  For a constant CodeObject the masking
itself raises TypeError: its value field is an identifier string.  A plain
int (never produced by this parser) would take the arithmetic unwrapped.
Returns the number of instructions written. -/
def writeLoad (instr : PyVal) (ty : String) (v : PyVal) (idx : Option Nat)
    (st : PState) : Except Err (Nat × PState) :=
  let index := idx.getD st.instructions.length
  if ty = "identifier" then
    .ok (1, {st with instructions := pyInsert st.instructions index [instr, v]})
  else if ty = "integer" then
    match v with
    | .p n =>
      if instr = .s ("ldb") then
        let b : Int := Int.emod n 256
        if 0 ≤ b ∧ b ≤ 127 then
          let ins := pyInsert st.instructions index [.s ("ldb"), .p b]
          .ok (1, {st with instructions := ins})
        else
          let notIns := pyInsert st.instructions index [.s ("not"), .s ("L"), .s ("L")]
          let ins := pyInsert notIns index [instr, .p (Int.emod (-b - 1) 256)]
          .ok (2, {st with instructions := ins})
      else .error (.pyErr ("TypeError"))
    | .i n =>
      let b : Int := if instr = .s ("ldb") then Int.emod n 256
                     else Int.emod (Int.ediv n 256) 256
      if 0 ≤ b ∧ b ≤ 127 then
        let ins := pyInsert st.instructions index [.s ("ldb"), .i b]
        .ok (1, {st with instructions := ins})
      else
        let notIns := pyInsert st.instructions index [.s ("not"), .s ("L"), .s ("L")]
        let ins := pyInsert notIns index [instr, .i (Int.emod (-b - 1) 256)]
        .ok (2, {st with instructions := ins})
    | _ => .error (.pyErr ("TypeError"))
  else .error (.pyErr ("BaseException"))

/-- write_lda (parser.py lines 505-529): ldu of the argument, mov L H, then
ldb of the same argument. -/
def writeLda (fuel : Nat) (st : PState) : Except Err PState :=
  match parseConstantExpression fuel st with
  | .error e => .error e
  | .ok ((ty, v), st1) =>
    match writeLoad (.s ("ldu")) ty v Option.none st1 with
    | .error e => .error e
    | .ok (_, st2) =>
      let st3 : PState :=
        {st2 with instructions := st2.instructions ++ [[.s ("mov"), .s ("L"), .s ("H")]]}
      match writeLoad (.s ("ldb")) ty v Option.none st3 with
      | .error e => .error e
      | .ok (_, st4) => .ok st4

/-- inst_formats (parser.py lines 4-9): expected argument kinds of the
non-pseudo instructions. -/
def instFormats (v : PyVal) : Option (List String) :=
  if v = .s ("mov") then some ["register", "register"]
  else if v = .s ("opd") then some ["register"]
  else if v = .s ("opi") then some ["register"]
  else if memS v ["jmp", "jgt", "jeq", "jlt", "jge", "jle", "jne", "jcs", "jis"] then some []
  else if memS v ["not", "neg", "inc", "dec"] then some ["register", "register"]
  else if memS v ["sub", "and", "or", "add"] then some ["register", "register", "register"]
  else if memS v ["hlt", "nop", "ics", "icc"] then some []
  else none

/-- The argument-collecting loop of parse_instruction (parser.py lines
393-405): argument i must have the expected token type and its value is
collected. -/
def collectArgs (st : PState) (fmts : List String) (k : Nat) :
    Except Err (List PyVal) :=
  match fmts with
  | [] => .ok []
  | f :: rest =>
    if tokType st ((k : Int) + 1) ≠ f then .error (.compiler ("Argument"))
    else
      match collectArgs st rest (k + 1) with
      | .error e => .error e
      | .ok args => .ok (tokValue st ((k : Int) + 1) :: args)

/-- parse_label (parser.py lines 180-201). -/
def parseLabel (st : PState) : Except Err (Bool × PState) :=
  if tokType st 0 = "identifier" ∧ tokValue st 1 = .s (":") then
    if (alook st.labels (tokValue st 0)).isSome ∨
       (alook st.constants (tokValue st 0)).isSome then
      .error (.compiler ("Name"))
    else
      .ok (true, {st with labels := st.labels ++ [(tokValue st 0, st.instructions.length)],
                          index := st.index + 2})
  else .ok (false, st)

/-- parse_definition (parser.py lines 203-236).  The source catches a
CompilerException from the expression only to reformat its message and
re-raises it, so errors pass through unchanged here. -/
def parseDefinition (fuel : Nat) (st : PState) : Except Err (Bool × PState) :=
  if ¬(tokType st 0 = "keyword" ∧ tokValue st 0 = .s ("define")) then .ok (false, st)
  else if tokType st 1 ≠ "identifier" then .error (.compiler ("Argument"))
  else
    let name := tokValue st 1
    if (alook st.labels name).isSome ∨ (alook st.constants name).isSome then
      .error (.compiler ("Name"))
    else
      match parseConstantExpression fuel {st with index := st.index + 2} with
      | .error e => .error e
      | .ok ((_, v), st2) =>
        if v = .noneV then .error (.compiler ("Syntax"))
        else .ok (true, {st2 with constants := st2.constants ++ [(name, v)]})

/-- parse_instruction (parser.py lines 372-427). -/
def parseInstruction (fuel : Nat) (st : PState) : Except Err (Bool × PState) :=
  if tokType st 0 ≠ "keyword" then .ok (false, st)
  else
    match instFormats (tokValue st 0) with
    | some fmts =>
      match collectArgs st fmts 0 with
      | .error e => .error e
      | .ok args =>
        .ok (true, {st with index := st.index + fmts.length + 1,
                            instructions := st.instructions ++ [tokValue st 0 :: args]})
    | none =>
      let instr := tokValue st 0
      if instr = .s ("ldb") ∨ instr = .s ("ldu") then
        match parseConstantExpression fuel {st with index := st.index + 1} with
        | .error e => .error e
        | .ok ((ty, v), st2) =>
          match writeLoad instr ty v Option.none st2 with
          | .error e => .error e
          | .ok (_, st3) => .ok (true, st3)
      else if instr = .s ("lda") then
        match writeLda fuel {st with index := st.index + 1} with
        | .error e => .error e
        | .ok st2 => .ok (true, st2)
      else .ok (false, st)

/-- parse_program (parser.py lines 147-178): each line is a definition or an
optional label and optional instruction; afterwards the line must be
finished, and parsing ends when the final line is consumed. -/
def parseProgram (fuel : Nat) (st : PState) : Except Err PState :=
  match fuel with
  | 0 => .error .fuelOut
  | fuel + 1 =>
    let step : Except Err PState :=
      match parseDefinition fuel st with
      | .error e => .error e
      | .ok (defn, st1) =>
        if defn then .ok st1
        else
          match parseLabel st1 with
          | .error e => .error e
          | .ok (_, st2) =>
            match parseInstruction fuel st2 with
            | .error e => .error e
            | .ok (_, st3) => .ok st3
    match step with
    | .error e => .error e
    | .ok st4 =>
      if (tokLine st4).length ≤ st4.index then
        let st5 : PState := {st4 with line := st4.line + 1, index := 0}
        if st5.line = st5.tokens.length then .ok st5
        else parseProgram fuel st5
      else .error (.compiler ("Syntax"))

/-- Fuel that dominates the number of elementary parsing steps: every step
either consumes a token or finishes a line. -/
def totalFuel (tokens : List (List (String × PyVal))) : Nat :=
  tokens.foldl (fun a l => a + l.length) 0 + tokens.length + 16

/-- Parser.__init__ (parser.py lines 73-100): seed the instruction list with
two nops, parse the whole program, check that every used label is defined
(the unused-name warnings are skipped: they never affect the result), and
append the final hlt. -/
def parseTokens (tokens : List (List (String × PyVal))) : Except Err PState :=
  let st0 : PState := ⟨tokens, 0, 0, [], [], [[.s ("nop")], [.s ("nop")]], [], []⟩
  match parseProgram (totalFuel tokens) st0 with
  | .error e => .error e
  | .ok st =>
    match st.usedLabels.find? (fun l => (alook st.labels l).isNone) with
    | some _ => .error (.compiler ("Name"))
    | none => .ok {st with instructions := st.instructions ++ [[.s ("hlt")]]}

/-! ## Emulator (src/emulator/emulator.py)

The Word class it imports (src/emulator/word.py) is absent from src/.
Modelled from the spec: the emulator state fixes the widths (PC u15; L, X,
Y, IN u8; H u7; section 3), instructions dispatch on their highest set bit,
H:L concatenation forms a 15-bit address, and word addition carries from the
ninth bit of the natural sum (section 4.6).  Registers are Nat, masked to
their width at every write. -/

/-- Highest set bit of a byte; -1 for zero (Word.msb, modelled from the
spec: dispatch by highest set bit). -/
def msb (n : Nat) : Int :=
  if 128 ≤ n then 7 else if 64 ≤ n then 6 else if 32 ≤ n then 5
  else if 16 ≤ n then 4 else if 8 ≤ n then 3 else if 4 ≤ n then 2
  else if 2 ≤ n then 1 else if 1 ≤ n then 0 else -1

/-- Bit k of a natural number. -/
def bit (n k : Nat) : Nat := n / 2 ^ k % 2

/-- Eight-bit complement (Word.__invert__, modelled from the spec). -/
def wnot8 (v : Nat) : Nat := 255 - v % 256

/-- OPCODE_MAPPING (emulator.py lines 14-31). -/
def opcodeMapping (n : Nat) : Nat :=
  if n = 0x0 then 0b001101 else if n = 0x3 then 0b110001
  else if n = 0x8 then 0b001111 else if n = 0xF then 0b110011
  else if n = 0xC then 0b011111 else if n = 0xB then 0b110111
  else if n = 0x4 then 0b001110 else if n = 0x7 then 0b110010
  else if n = 0xD then 0b010011 else if n = 0x5 then 0b000111
  else if n = 0xA then 0b000000 else if n = 0xE then 0b010101
  else if n = 0x9 then 0b000010 else if n = 0x1 then 0b000101
  else if n = 0x6 then 0b000001 else 0b000001

/-- Display state (emulator.py class Display): 20 x 4 character buffer with
a cursor address and increment direction. -/
structure DState where
  address : Nat
  increment : Int
  text : List (List Char)
deriving DecidableEq

/-- Display.data (emulator.py lines 67-73): write the character at the
cursor and move the cursor by the increment, modulo 80. -/
def dispData (d : DState) (val : Nat) : DState :=
  let row := d.address / 20
  let col := d.address % 20
  let newText := d.text.set row ((d.text.getD row []).set col (Char.ofNat val))
  ⟨(((d.address : Int) + d.increment).emod 80).toNat, d.increment, newText⟩

/-- Display.instruction (emulator.py lines 75-91), dispatching on the
highest set bit of the written value. -/
def dispInstr (d : DState) (val : Nat) : DState :=
  let m := msb val
  let d1 := if m = 0 then (⟨0, 1, List.replicate 4 (List.replicate 20 ' ')⟩ : DState) else d
  let d2 := if m = 1 then {d1 with address := 0} else d1
  if m = 2 then {d2 with increment := if bit val 1 = 1 then 1 else -1} else d2

/-- The machine state (emulator.py class Computer). -/
structure Computer where
  L : Nat
  H : Nat
  PC : Nat
  X : Nat
  Y : Nat
  IN : Nat
  CF : Bool
  IF : Bool
  RAM : Nat → Nat
  ROM : Nat → Nat
  display : DState

/-- Computer.read_mem: the RAM byte at address H:L. -/
def readMem (c : Computer) : Nat := c.RAM (c.H % 128 * 256 + c.L % 256)

/-- Computer.write_mem. -/
def writeMem (c : Computer) (v : Nat) : Computer :=
  let addr := c.H % 128 * 256 + c.L % 256
  {c with RAM := fun a => if a = addr then v else c.RAM a}

/-- Computer.input (emulator.py lines 150-152): latch the value and raise
the input flag. -/
def Computer.input (c : Computer) (val : Nat) : Computer :=
  {c with IN := val % 256, IF := true}

/-- Computer.execute_al (emulator.py lines 249-269): map the 4-bit opcode
through OPCODE_MAPPING to six control bits, derive the two operands, add or
AND them, update CF from the carry only in the additive case, optionally
complement, and write the result to X or L. -/
def executeAl (c : Computer) (outX m op : Nat) : Computer :=
  let opcode := opcodeMapping op
  let b0 := if m ≠ 0 then readMem c else c.L
  let x1 := if bit opcode 5 = 1 then 0 else c.X
  let x2 := if bit opcode 4 = 1 then wnot8 x1 else x1
  let b1 := if bit opcode 3 = 1 then 0 else b0
  let b2 := if bit opcode 2 = 1 then wnot8 b1 else b1
  let outv := if bit opcode 1 = 1 then x2 + b2 else Nat.land x2 b2
  let cf := if bit opcode 1 = 1 then decide (256 ≤ x2 + b2) else c.CF
  let outv2 := if bit opcode 0 = 1 then wnot8 outv else outv
  if outX ≠ 0 then {c with X := outv2 % 256, CF := cf}
  else {c with L := outv2 % 256, CF := cf}

/-- Computer.execute (emulator.py lines 165-247): a single instruction step.
A hlt leaves the state unchanged; otherwise PC advances (mod 2^15) and the
instruction dispatches on its highest set bit exactly as the chain of if
statements in the source (msb selects at most one of them). -/
def execute (c : Computer) : Computer :=
  let instruction := c.ROM c.PC % 256
  if instruction = 0 then c
  else
    let c1 := {c with PC := (c.PC + 1) % 32768}
    let m := msb instruction
    if m = 7 then {c1 with L := instruction % 128}
    else if m = 6 then
      executeAl c1 (bit instruction 5) (bit instruction 4) (instruction % 16)
    else if m = 5 then
      let source0 := instruction % 4
      let source := if source0 = 3 then source0 + bit instruction 4 else source0
      let sourceValue :=
        if source = 1 then c1.L
        else if source = 2 then c1.IN
        else if source = 3 then readMem c1
        else if source = 4 then c1.Y
        else c1.X
      let dest0 := instruction / 4 % 4
      let dest := if dest0 = 3 then dest0 + bit instruction 4 else dest0
      if dest = 0 then {c1 with X := sourceValue}
      else if dest = 1 then {c1 with L := sourceValue}
      else if dest = 2 then {c1 with H := sourceValue % 128}
      else if dest = 3 then {c1 with Y := sourceValue}
      else if dest = 4 then writeMem c1 sourceValue
      else c1
    else if m = 4 then
      let destination := c1.H % 128 * 256 + c1.L % 256
      if bit instruction 3 = 1 then
        let p1 := if bit instruction 0 = 1 ∧ 0 < c1.X ∧ c1.X < 127 then
                    {c1 with PC := destination} else c1
        let p2 := if bit instruction 1 = 1 ∧ c1.X = 0 then
                    {p1 with PC := destination} else p1
        if bit instruction 2 = 1 ∧ 128 ≤ c1.X then
          {p2 with PC := destination} else p2
      else
        let p1 := if bit instruction 1 = 1 ∧ c1.CF then
                    {c1 with PC := destination} else c1
        if bit instruction 2 = 1 ∧ c1.IF then
          {p1 with PC := destination} else p1
    else if m = 3 then
      let source := instruction % 4
      let sourceValue :=
        if source = 1 then c1.L
        else if source = 2 then c1.IN
        else if source = 3 then readMem c1
        else c1.X
      if bit instruction 2 = 1 then {c1 with display := dispData c1.display (sourceValue % 256)}
      else {c1 with display := dispInstr c1.display (sourceValue % 256)}
    else if m = 1 then
      if (if c1.CF then 1 else 0) = bit instruction 0 then
        {c1 with H := (c1.H + 1) % 128}
      else c1
    else c1

/-- Iterated execution. -/
def runSteps (n : Nat) (c : Computer) : Computer :=
  match n with
  | 0 => c
  | n + 1 => runSteps n (execute c)

/-! ## Positioned text and code cursors (src/cstring.py)

A PositionedString is a character sequence where every character carries the
line and column it came from; it is modelled as a list of characters with
coordinates.  The sources remove line-break characters only at the Unicode
newline; the repository processes plain newline-terminated text. -/

structure PChar where
  c : Char
  line : Nat
  pos : Nat
deriving DecidableEq

abbrev PStr := List PChar

def nullPC : PChar := ⟨Char.ofNat 0, 0, 0⟩

/-- PositionedString.create_string with keepends=True (cstring.py lines
835-858): every character, including the newline itself, carries its line
and column. -/
def createStringGo : List Char → Nat → Nat → PStr
  | [], _, _ => []
  | ch :: rest, l, j =>
    ⟨ch, l, j⟩ :: (if ch = '\n' then createStringGo rest (l + 1) 0
                   else createStringGo rest l (j + 1))

def createString (s : String) (line : Nat) : PStr := createStringGo s.data line 0

/-- The raw characters of a positioned string. -/
def pstrText (p : PStr) : List Char := p.map fun x => x.c

/-- Python str.isspace restricted to the ASCII whitespace the sources use. -/
def isPySpace (ch : Char) : Bool :=
  [' ', '\t', '\n', '\x0b', '\x0c', '\r'].contains ch

/-- Python str.isalpha restricted to ASCII letters. -/
def isPyAlpha (ch : Char) : Bool :=
  ('A' ≤ ch ∧ ch ≤ 'Z') ∨ ('a' ≤ ch ∧ ch ≤ 'z')

/-- Python str.isalnum restricted to ASCII letters and digits. -/
def isPyAlnum (ch : Char) : Bool :=
  isPyAlpha ch ∨ ('0' ≤ ch ∧ ch ≤ '9')

/-- PositionedString.__int__ (cstring.py lines 915-930): the hex value of a
digit character, none when it is not a hex digit (Python raises ValueError,
which the hex tokenizer catches). -/
def hexDigitVal (ch : Char) : Option Nat :=
  if '0' ≤ ch ∧ ch ≤ '9' then some (ch.toNat - ('0').toNat)
  else if 'a' ≤ ch ∧ ch ≤ 'f' then some (ch.toNat - ('a').toNat + 10)
  else if 'A' ≤ ch ∧ ch ≤ 'F' then some (ch.toNat - ('A').toNat + 10)
  else none

/-- A Code object (cstring.py class Code): a positioned string with a
traversal offset. -/
structure Code where
  string : PStr
  offset : Nat
deriving DecidableEq

/-- Code.__len__: characters at or after the offset. -/
def codeLen (c : Code) : Nat := c.string.length - c.offset

/-- Code.__getitem__ (cstring.py lines 158-166): index relative to the
offset; past the end the null character is returned; negative raw indices
wrap.  A raw index that is out of range even after wrapping raises in
Python; those runs abort anyway and read as the null character here. -/
def codeGet (c : Code) (i : Int) : PChar :=
  if i < (codeLen c : Int) then
    let idx : Int := i + (c.offset : Int)
    let idx2 : Int := if idx < 0 then idx + (c.string.length : Int) else idx
    if idx2 < 0 then nullPC else (c.string.get? idx2.toNat).getD nullPC
  else nullPC

/-- Code.substring_length: the piece of the string from the offset, at most
the given length. -/
def substrLen (c : Code) (n : Nat) : PStr := (c.string.drop c.offset).take n

/-- Code.match (cstring.py lines 122-136): advance past the given text when
it is next, otherwise leave the offset alone. -/
def codeMatch (c : Code) (s : List Char) : Bool × Code :=
  if pstrText (substrLen c s.length) = s then
    (true, {c with offset := c.offset + s.length})
  else (false, c)

/-- Code.advance. -/
def codeAdvance (c : Code) (n : Nat) : Code := {c with offset := c.offset + n}

/-- Code.matchrange (cstring.py lines 138-152): advance past the current
character when it lies in the inclusive range, returning it. -/
def codeMatchRange (c : Code) (lo hi : Char) : Option PChar × Code :=
  let ch := codeGet c 0
  if lo ≤ ch.c ∧ ch.c ≤ hi then (some ch, {c with offset := c.offset + 1})
  else (none, c)

/-- Code.skip_whitespace; the fuel always dominates the remaining length. -/
def codeSkipWs : Nat → Code → Code
  | 0, c => c
  | f + 1, c =>
    if isPySpace (codeGet c 0).c then codeSkipWs f (codeAdvance c 1) else c

/-- End index of an end-of-line comment (the scan of cstring.py lines
181-188): the first index at or after j whose character is on a different
line, or the length. -/
def eolEnd (fuel : Nat) (s : PStr) (ln : Nat) (j : Nat) : Nat :=
  match fuel with
  | 0 => j
  | f + 1 =>
    if j < s.length then
      if ((s.get? j).getD nullPC).line ≠ ln then j else eolEnd f s ln (j + 1)
    else j

/-- Index of the closing star-slash of a block comment (cstring.py lines
191-198), none when it is missing. -/
def blockEnd (fuel : Nat) (s : PStr) (j : Nat) : Option Nat :=
  match fuel with
  | 0 => none
  | f + 1 =>
    if j < s.length then
      if pstrText ((s.drop j).take 2) = ['*', '/'] then some j
      else blockEnd f s (j + 1)
    else none

/-- The inner loop removing end-of-line comments starting at index i. -/
def stripEol (fuel : Nat) (s : PStr) (i : Nat) : PStr :=
  match fuel with
  | 0 => s
  | f + 1 =>
    if pstrText ((s.drop i).take 2) = ['/', '/'] then
      let ln := ((s.get? i).getD nullPC).line
      let j := eolEnd (s.length + 1) s ln (i + 2)
      stripEol f (s.take i ++ s.drop j) i
    else s

/-- The inner loop removing block comments starting at index i; an unclosed
comment is the Comment-not-closed SyntaxError. -/
def stripBlock (fuel : Nat) (s : PStr) (i : Nat) : Except Err PStr :=
  match fuel with
  | 0 => .error .fuelOut
  | f + 1 =>
    if pstrText ((s.drop i).take 2) = ['/', '*'] then
      match blockEnd (s.length + 1) s (i + 2) with
      | none => .error (.compiler ("Syntax"))
      | some j => stripBlock f (s.take i ++ s.drop (j + 2)) i
    else .ok s

/-- Code.removecomments (cstring.py lines 168-200): for each index, strip
any end-of-line then block comments starting there. -/
def removeComments (fuel : Nat) (s : PStr) (i : Nat) : Except Err PStr :=
  match fuel with
  | 0 => .error .fuelOut
  | f + 1 =>
    if i + 1 < s.length then
      let s1 := stripEol (s.length + 1) s i
      match stripBlock (s1.length + 1) s1 i with
      | .error e => .error e
      | .ok s2 => removeComments f s2 (i + 1)
    else .ok s

/-- Code.__init__ on a raw string (cstring.py lines 26-37, keepends true):
coordinates are assigned and comments removed. -/
def mkCode (text : String) : Except Err Code :=
  let s := createString text 0
  match removeComments (s.length + 2) s 0 with
  | .error e => .error e
  | .ok s2 => .ok ⟨s2, 0⟩

/-- First phase of Code.stripwhitespace: delete leading whitespace; when
every character is whitespace nothing is deleted. -/
def stripWsFront (s : PStr) : PStr :=
  match s.findIdx? (fun ch => ! isPySpace ch.c) with
  | some k => s.drop k
  | none => s

/-- Second phase: delete trailing whitespace; when every character is
whitespace nothing is deleted. -/
def stripWsBack (s : PStr) : PStr :=
  match s.reverse.findIdx? (fun ch => ! isPySpace ch.c) with
  | some r => s.take (s.length - r)
  | none => s

/-- The backwards whitespace scan of the third phase (cstring.py lines
244-246): the last index at or before i holding a non-space, or -1. -/
def wsStart (s : PStr) : Nat → Int
  | 0 => if isPySpace (((s.get? 0).getD nullPC).c) then -1 else 0
  | k + 1 =>
    if isPySpace (((s.get? (k + 1)).getD nullPC).c) then wsStart s k
    else ((k + 1 : Nat) : Int)

/-- The forwards whitespace scan of the third phase (cstring.py lines
247-249). -/
def wsEnd (fuel : Nat) (s : PStr) (e : Nat) : Nat :=
  match fuel with
  | 0 => e
  | f + 1 =>
    if e < s.length then
      if isPySpace (((s.get? e).getD nullPC).c) then wsEnd f s (e + 1) else e
    else e

/-- Third phase of Code.stripwhitespace (cstring.py lines 239-250): walking
indices downwards, whitespace around a line boundary is deleted.  Its call
sites only ever pass single-line strings, where no boundary exists. -/
def stripWsMid (fuel : Nat) (s : PStr) (i : Nat) : Except Err PStr :=
  match fuel with
  | 0 => .error .fuelOut
  | f + 1 =>
    match s.get? i, s.get? (i + 1) with
    | some a, some b =>
      let s2 := if a.line ≠ b.line then
          s.take ((wsStart s i) + 1).toNat ++ s.drop (wsEnd (s.length + 1) s (i + 1))
        else s
      if i = 0 then .ok s2 else stripWsMid f s2 (i - 1)
    | _, _ => .error (.pyErr ("IndexError"))

/-- Code.stripwhitespace (cstring.py lines 223-250). -/
def stripWhitespace (s : PStr) : Except Err PStr :=
  let s1 := stripWsBack (stripWsFront s)
  if s1.length < 2 then .ok s1 else stripWsMid s1.length s1 (s1.length - 2)

/-- PositionedString.isspace: true only for a nonempty all-whitespace
string (the Python empty string is not a space). -/
def pstrIsSpace (p : PStr) : Bool :=
  match p with
  | [] => false
  | _ => p.all fun ch => isPySpace ch.c

/-- LinedCode (cstring.py class LinedCode): one Code per source line plus
the index of the line being processed. -/
structure LinedCode where
  lines : List Code
  line : Nat
deriving DecidableEq

/-- The line-splitting loop of LinedCode.__init__ (cstring.py lines
284-298): cut the string wherever the line coordinate changes. -/
def splitLinesGo (fuel : Nat) (s : PStr) (ln : Nat) (lastIdx : Nat) (i : Nat) :
    List PStr :=
  match fuel with
  | 0 => [s.drop lastIdx]
  | f + 1 =>
    if i < s.length then
      let chLn := ((s.get? i).getD nullPC).line
      if chLn ≠ ln then
        ((s.drop lastIdx).take (i - lastIdx)) :: splitLinesGo f s chLn i (i + 1)
      else splitLinesGo f s ln lastIdx (i + 1)
    else [s.drop lastIdx]

/-- LinedCode.__init__: build the comment-free Code, split it at line
boundaries, strip whitespace on each line and drop all-whitespace lines.
An empty input raises (s[0] on the empty string). -/
def mkLinedCode (text : String) : Except Err LinedCode :=
  match mkCode text with
  | .error e => .error e
  | .ok code =>
    let s := code.string
    match s.head? with
    | none => .error (.pyErr ("IndexError"))
    | some c0 =>
      match (splitLinesGo (s.length + 1) s c0.line 0 0).mapM stripWhitespace with
      | .error e => .error e
      | .ok stripped =>
        .ok ⟨(stripped.filter fun p => ! pstrIsSpace p).map (fun p => (⟨p, 0⟩ : Code)), 0⟩

/-- The current line of a LinedCode; Python raises IndexError when the line
index is out of range. -/
def lcCur (lc : LinedCode) : Except Err Code :=
  match lc.lines.get? lc.line with
  | some c => .ok c
  | none => .error (.pyErr ("IndexError"))

def lcSetCur (lc : LinedCode) (c : Code) : LinedCode :=
  {lc with lines := lc.lines.set lc.line c}

/-- LinedCode.match: match within the current line. -/
def lcMatch (lc : LinedCode) (s : List Char) : Except Err (Bool × LinedCode) :=
  match lcCur lc with
  | .error e => .error e
  | .ok cur =>
    let r := codeMatch cur s
    .ok (r.1, lcSetCur lc r.2)

/-- LinedCode.matchrange. -/
def lcMatchRange (lc : LinedCode) (lo hi : Char) :
    Except Err (Option PChar × LinedCode) :=
  match lcCur lc with
  | .error e => .error e
  | .ok cur =>
    let r := codeMatchRange cur lo hi
    .ok (r.1, lcSetCur lc r.2)

/-- LinedCode.__getitem__: read within the current line. -/
def lcGet (lc : LinedCode) (i : Int) : Except Err PChar :=
  match lcCur lc with
  | .error e => .error e
  | .ok cur => .ok (codeGet cur i)

/-- LinedCode.advance. -/
def lcAdvance (lc : LinedCode) (n : Nat) : Except Err LinedCode :=
  match lcCur lc with
  | .error e => .error e
  | .ok cur => .ok (lcSetCur lc (codeAdvance cur n))

/-- LinedCode.skip_whitespace. -/
def lcSkipWs (lc : LinedCode) : Except Err LinedCode :=
  match lcCur lc with
  | .error e => .error e
  | .ok cur => .ok (lcSetCur lc (codeSkipWs (codeLen cur + 1) cur))

/-- LinedCode.__len__ (cstring.py lines 384-389): remaining length of the
current and all following lines. -/
def lcLen (lc : LinedCode) : Nat :=
  (lc.lines.drop lc.line).foldl (fun a c => a + codeLen c) 0

/-- LinedCode.hasmore (cstring.py lines 376-378). -/
def lcHasMore (lc : LinedCode) : Except Err Bool :=
  if (lc.line : Int) < (lc.lines.length : Int) - 1 then .ok true
  else
    match lc.lines.get? lc.line with
    | some cur => .ok (0 < codeLen cur)
    | none => .error (.pyErr ("IndexError"))

/-- LinedCode.advanceline (cstring.py lines 326-336): move to the next line
exactly when the current line is finished and a next line exists. -/
def lcAdvanceLine (lc : LinedCode) : Except Err (Bool × LinedCode) :=
  if (lc.line : Int) < (lc.lines.length : Int) - 1 then
    match lcCur lc with
    | .error e => .error e
    | .ok cur =>
      if codeLen cur = 0 then .ok (true, {lc with line := lc.line + 1})
      else .ok (false, lc)
  else .ok (false, lc)

/-! ## Lexer (src/assembler/tokenizer.py) -/

/-- Keyword list (tokenizer.py lines 7-8). -/
def keywordsList : List String :=
  ["lda", "ldb", "ldu", "mov", "jmp", "jlt", "jeq", "jgt", "jle", "jge", "jne",
   "nop", "jis", "jcs", "opd", "opi", "hlt", "not", "neg", "inc", "dec", "sub",
   "and", "or", "add", "ics", "icc", "define"]

/-- Register list (tokenizer.py line 10). -/
def registersList : List String := ["L", "H", "M", "I", "X", "Y"]

/-- Lexer state: the cursor plus the token rows built so far. -/
structure TokState where
  code : LinedCode
  tokens : List (List (String × PyVal))
deriving DecidableEq

/-- The shape of every token this lexer can emit: its value is never the
minus sign, its type is one of the five types addtoken names (there is no
symbol type), and the only label-typed token is the colon. -/
def goodTok (t : String × PyVal) : Prop :=
  t.2 ≠ PyVal.s ("-") ∧
  (t.1 = "keyword" ∨ t.1 = "register" ∨ t.1 = "identifier" ∨
   t.1 = "label" ∨ t.1 = "integer") ∧
  (t.1 = "label" → t.2 = PyVal.s (":"))

instance (t : String × PyVal) : Decidable (goodTok t) := by
  unfold goodTok
  infer_instance

/-- Every token of every row satisfies goodTok. -/
def goodToks (l : List (List (String × PyVal))) : Prop :=
  ∀ row ∈ l, ∀ t ∈ row, goodTok t

/-- Tokenizer.addtoken: append to the current (last) token row. -/
def addTok (ts : TokState) (ty : String) (v : PyVal) : TokState :=
  {ts with tokens := ts.tokens.dropLast ++ [(ts.tokens.getLast?.getD []) ++ [(ty, v)]]}

/-- The same lexer state with the integer value of the most recently added
token negated (the last token of the last row); used to state how a
consumed minus sign changes the token the following literal emits. -/
def negLastTok (ts : TokState) : TokState :=
  match ts.tokens.getLast? with
  | none => ts
  | some row =>
    match row.getLast? with
    | some (ty, .p v) =>
      {ts with tokens := ts.tokens.dropLast ++ [row.dropLast ++ [(ty, .p (-v))]]}
    | _ => ts

/-- Negate the token a successful sub-tokenizer just added and pass a
failure through: the combinator by which a consumed minus sign changes the
outcome of the sign-independent tokenizer tail. -/
def negFlip (r : Bool × TokState) : Bool × TokState :=
  (r.1, if r.1 then negLastTok r.2 else r.2)

/-- Tokenizer.tokenize_label (tokenizer.py lines 76-85): a colon. -/
def tokenizeLabel (ts : TokState) : Except Err (Bool × TokState) :=
  match lcMatch ts.code [':'] with
  | .error e => .error e
  | .ok (b, lc) =>
    if b then .ok (true, addTok {ts with code := lc} ("label") (.s (":")))
    else .ok (false, {ts with code := lc})

/-- The word-collecting loop of tokenize_keyword_identifier_register
(tokenizer.py lines 109-113). -/
def collectWord (fuel : Nat) (lc : LinedCode) (n : Nat) (i : Nat)
    (acc : List PChar) : Except Err (List PChar) :=
  match fuel with
  | 0 => .ok acc
  | f + 1 =>
    if i < n then
      match lcGet lc (i : Int) with
      | .error e => .error e
      | .ok ch =>
        if isPyAlnum ch.c ∨ ch.c = '_' then collectWord f lc n (i + 1) (acc ++ [ch])
        else .ok acc
    else .ok acc

/-- Tokenizer.tokenize_keyword_identifier_register (tokenizer.py lines
87-123). -/
def tokenizeWord (ts : TokState) : Except Err (Bool × TokState) :=
  match lcGet ts.code 0 with
  | .error e => .error e
  | .ok w0 =>
    if ¬(isPyAlpha w0.c ∨ w0.c = '_') then .ok (false, ts)
    else
      match collectWord (lcLen ts.code + 1) ts.code (lcLen ts.code) 1 [w0] with
      | .error e => .error e
      | .ok word =>
        match lcAdvance ts.code word.length with
        | .error e => .error e
        | .ok lc2 =>
          let wstr : String := ⟨pstrText word⟩
          let ts2 := {ts with code := lc2}
          if keywordsList.contains wstr then .ok (true, addTok ts2 ("keyword") (.s wstr))
          else if registersList.contains wstr then .ok (true, addTok ts2 ("register") (.s wstr))
          else .ok (true, addTok ts2 ("identifier") (.s wstr))

/-- Tokenizer.newline (tokenizer.py lines 125-136). -/
def tokenizeNewline (ts : TokState) : Except Err (Bool × TokState) :=
  match lcAdvanceLine ts.code with
  | .error e => .error e
  | .ok (b, lc) =>
    if b then .ok (true, ⟨lc, ts.tokens ++ [[]]⟩)
    else .ok (false, {ts with code := lc})

/-- The digit loop of tokenize_bin (tokenizer.py lines 188-194). -/
def binLoop (fuel : Nat) (pos : Bool) (n : Nat) (ts : TokState) :
    Except Err (Bool × TokState) :=
  match fuel with
  | 0 => .error .fuelOut
  | f + 1 =>
    match lcMatch ts.code ['0'] with
    | .error e => .error e
    | .ok (z, lc1) =>
      if z then binLoop f pos (2 * n) {ts with code := lc1}
      else
        match lcMatch lc1 ['1'] with
        | .error e => .error e
        | .ok (o, lc2) =>
          if o then binLoop f pos (2 * n + 1) {ts with code := lc2}
          else .ok (true, addTok {ts with code := lc2} ("integer")
                        (.p (if pos then (n : Int) else -(n : Int))))

/-- Tokenizer.tokenize_bin (tokenizer.py lines 160-194). -/
def tokenizeBin (pos : Bool) (ts : TokState) : Except Err (Bool × TokState) :=
  match lcMatch ts.code ['0', 'b'] with
  | .error e => .error e
  | .ok (m1, lcA) =>
    match (if m1 then .ok (true, lcA) else lcMatch lcA ['0', 'B'] :
           Except Err (Bool × LinedCode)) with
    | .error e => .error e
    | .ok (m, lcB) =>
      if ¬m then .ok (false, {ts with code := lcB})
      else
        match lcMatch lcB ['0'] with
        | .error e => .error e
        | .ok (z, lcC) =>
          if z then binLoop (lcLen lcC + 1) pos 0 {ts with code := lcC}
          else
            match lcMatch lcC ['1'] with
            | .error e => .error e
            | .ok (o, lcD) =>
              if o then binLoop (lcLen lcD + 1) pos 1 {ts with code := lcD}
              else .error (.compiler ("Syntax"))

/-- The digit loop of tokenize_oct (tokenizer.py lines 214-220). -/
def octLoop (fuel : Nat) (pos : Bool) (n : Nat) (ts : TokState) :
    Except Err (Bool × TokState) :=
  match fuel with
  | 0 => .error .fuelOut
  | f + 1 =>
    match lcMatchRange ts.code '0' '7' with
    | .error e => .error e
    | .ok (some ch, lc1) =>
      octLoop f pos (8 * n + ((hexDigitVal ch.c).getD 0)) {ts with code := lc1}
    | .ok (none, lc1) =>
      .ok (true, addTok {ts with code := lc1} ("integer")
            (.p (if pos then (n : Int) else -(n : Int))))

/-- Tokenizer.tokenize_oct (tokenizer.py lines 196-220). -/
def tokenizeOct (pos : Bool) (ts : TokState) : Except Err (Bool × TokState) :=
  match lcMatch ts.code ['0'] with
  | .error e => .error e
  | .ok (m, lc1) =>
    if ¬m then .ok (false, {ts with code := lc1})
    else octLoop (lcLen lc1 + 1) pos 0 {ts with code := lc1}

/-- The digit loop of tokenize_dec (tokenizer.py lines 242-247). -/
def decLoop (fuel : Nat) (pos : Bool) (n : Nat) (ts : TokState) :
    Except Err (Bool × TokState) :=
  match fuel with
  | 0 => .error .fuelOut
  | f + 1 =>
    match lcMatchRange ts.code '0' '9' with
    | .error e => .error e
    | .ok (some ch, lc1) =>
      decLoop f pos (10 * n + ((hexDigitVal ch.c).getD 0)) {ts with code := lc1}
    | .ok (none, lc1) =>
      .ok (true, addTok {ts with code := lc1} ("integer")
            (.p (if pos then (n : Int) else -(n : Int))))

/-- Tokenizer.tokenize_dec (tokenizer.py lines 222-247). -/
def tokenizeDec (pos : Bool) (ts : TokState) : Except Err (Bool × TokState) :=
  match lcMatchRange ts.code '0' '9' with
  | .error e => .error e
  | .ok (none, lc1) => .ok (false, {ts with code := lc1})
  | .ok (some ch, lc1) =>
    decLoop (lcLen lc1 + 1) pos ((hexDigitVal ch.c).getD 0) {ts with code := lc1}

/-- The digit loop of tokenize_hex (tokenizer.py lines 277-282). -/
def hexLoop (fuel : Nat) (pos : Bool) (n : Nat) (ts : TokState) :
    Except Err (Bool × TokState) :=
  match fuel with
  | 0 => .error .fuelOut
  | f + 1 =>
    match lcGet ts.code 0 with
    | .error e => .error e
    | .ok ch =>
      match hexDigitVal ch.c with
      | some d =>
        match lcAdvance ts.code 1 with
        | .error e => .error e
        | .ok lc1 => hexLoop f pos (16 * n + d) {ts with code := lc1}
      | none =>
        .ok (true, addTok ts ("integer")
              (.p (if pos then (n : Int) else -(n : Int))))

/-- Tokenizer.tokenize_hex (tokenizer.py lines 249-282): after the 0x prefix
the first character must be a hex digit, further digits extend the value. -/
def tokenizeHex (pos : Bool) (ts : TokState) : Except Err (Bool × TokState) :=
  match lcMatch ts.code ['0', 'x'] with
  | .error e => .error e
  | .ok (m1, lcA) =>
    match (if m1 then .ok (true, lcA) else lcMatch lcA ['0', 'X'] :
           Except Err (Bool × LinedCode)) with
    | .error e => .error e
    | .ok (m, lcB) =>
      if ¬m then .ok (false, {ts with code := lcB})
      else
        match lcGet lcB 0 with
        | .error e => .error e
        | .ok ch =>
          match hexDigitVal ch.c with
          | none => .error (.compiler ("Syntax"))
          | some d =>
            match lcAdvance lcB 1 with
            | .error e => .error e
            | .ok lc1 => hexLoop (lcLen lc1 + 1) pos d {ts with code := lc1}

/-- Tokenizer.tokenize_char (tokenizer.py lines 284-320): after the opening
quote, a malformed literal is a SyntaxError; a shape-correct literal then
reads self.code[0].chars, an attribute PositionedString does not have (a
leftover from the older String class), so Python raises AttributeError. -/
def tokenizeChar (ts : TokState) : Except Err (Bool × TokState) :=
  match lcMatch ts.code [Char.ofNat 39] with
  | .error e => .error e
  | .ok (m, lc1) =>
    if ¬m then .ok (false, {ts with code := lc1})
    else
      match lcGet lc1 1 with
      | .error e => .error e
      | .ok ch1 =>
        if ch1.c ≠ Char.ofNat 39 then .error (.compiler ("Syntax"))
        else .error (.pyErr ("AttributeError"))

/-- The sign-independent tail of Tokenizer.tokenize_int (tokenizer.py lines
151-152): the integer forms are tried in order, each receiving the pos flag
that tells it which sign to store. -/
def tokenizeIntAfterSign (pos : Bool) (ts : TokState) :
    Except Err (Bool × TokState) :=
  match tokenizeBin pos ts with
  | .error e => .error e
  | .ok (true, ts2) => .ok (true, ts2)
  | .ok (false, ts2) =>
    match tokenizeHex pos ts2 with
    | .error e => .error e
    | .ok (true, ts3) => .ok (true, ts3)
    | .ok (false, ts3) =>
      match tokenizeOct pos ts3 with
      | .error e => .error e
      | .ok (true, ts4) => .ok (true, ts4)
      | .ok (false, ts4) =>
        match tokenizeDec pos ts4 with
        | .error e => .error e
        | .ok (true, ts5) => .ok (true, ts5)
        | .ok (false, ts5) =>
          match tokenizeChar ts5 with
          | .error e => .error e
          | .ok (true, ts6) => .ok (true, ts6)
          | .ok (false, ts6) => .ok (false, ts6)

/-- Tokenizer.tokenize_int (tokenizer.py lines 138-158): an optional minus
sign is consumed first, then the integer forms are tried in order; when a
minus was consumed but no integer follows, the lexer fails. -/
def tokenizeInt (ts : TokState) : Except Err (Bool × TokState) :=
  match lcMatch ts.code ['-'] with
  | .error e => .error e
  | .ok (m, lc1) =>
    let pos := !m
    match tokenizeIntAfterSign pos {ts with code := lc1} with
    | .error e => .error e
    | .ok (true, ts2) => .ok (true, ts2)
    | .ok (false, ts2) =>
      if ¬pos then .error (.compiler ("Syntax"))
      else .ok (false, ts2)

/-- Tokenizer.__init__ main loop (tokenizer.py lines 53-58): skip
whitespace, then one of integer, word, label or line break must apply. -/
def tokLoop (fuel : Nat) (ts : TokState) :
    Except Err (List (List (String × PyVal))) :=
  match fuel with
  | 0 => .error .fuelOut
  | f + 1 =>
    match lcHasMore ts.code with
    | .error e => .error e
    | .ok false => .ok ts.tokens
    | .ok true =>
      match lcSkipWs ts.code with
      | .error e => .error e
      | .ok lc1 =>
        let ts1 := {ts with code := lc1}
        match tokenizeInt ts1 with
        | .error e => .error e
        | .ok (true, ts2) => tokLoop f ts2
        | .ok (false, ts2) =>
          match tokenizeWord ts2 with
          | .error e => .error e
          | .ok (true, ts3) => tokLoop f ts3
          | .ok (false, ts3) =>
            match tokenizeLabel ts3 with
            | .error e => .error e
            | .ok (true, ts4) => tokLoop f ts4
            | .ok (false, ts4) =>
              match tokenizeNewline ts4 with
              | .error e => .error e
              | .ok (true, ts5) => tokLoop f ts5
              | .ok (false, _) => .error (.compiler ("Syntax"))

/-- tokenize (tokenizer.py lines 323-350): the token rows of a source
text. -/
def tokenizeText (text : String) : Except Err (List (List (String × PyVal))) :=
  match mkLinedCode text with
  | .error e => .error e
  | .ok lc => tokLoop (2 * text.length + 16) ⟨lc, [[]]⟩

/-! ## Label resolver and assembly pipeline -/

/-- Modelled from the spec: the ldb/ldu expansion that the label resolver
re-runs on a resolved value (spec section Pseudo-instruction expansion:
take the lower byte for ldb or the upper byte for ldu; if bit 7 is clear
emit one Fixed(ldb n), otherwise Fixed(ldb of the masked complement)
followed by Fixed(not L L)). -/
def specExpandLoad (which : String) (v : Nat) : List (List PyVal) :=
  let b := if which = "ldb" then v % 256 else v / 256 % 256
  if b < 128 then [[.s ("ldb"), .i (b : Int)]]
  else [[.s ("ldb"), .i ((255 - b : Nat) : Int)], [.s ("not"), .s ("L"), .s ("L")]]

/-- A pending-load placeholder: a two-element instruction whose load keyword
still carries an identifier argument. -/
def isRef (ins : List PyVal) : Option (String × PyVal) :=
  match ins with
  | [.s ld, .s name] =>
    if ld = "ldb" ∨ ld = "ldu" then some (ld, .s name) else none
  | _ => none

/-- One step of the resolver at index i: replace a placeholder there by its
expansion and, when the expansion has two instructions, increment every
label strictly beyond the edit site. -/
def elStep (i : Nat) (instrs : List (List PyVal)) (labels : List (PyVal × Nat)) :
    Except Err (List (List PyVal) × List (PyVal × Nat)) :=
  match instrs.get? i with
  | none => .ok (instrs, labels)
  | some ins =>
    match isRef ins with
    | none => .ok (instrs, labels)
    | some (ld, name) =>
      match alook labels name with
      | none => .error (.compiler ("Name"))
      | some addr =>
        let exp := specExpandLoad ld addr
        let instrs2 := instrs.take i ++ exp ++ instrs.drop (i + 1)
        let labels2 := if exp.length = 2 then
            labels.map (fun p => if i < p.2 then (p.1, p.2 + 1) else p)
          else labels
        .ok (instrs2, labels2)

/-- Modelled from the spec: encode_labels (src/assembler/label_encoder.py,
imported by assembler.py but absent from src/).  Spec section 4.4: walk the
instruction list in reverse, substituting each placeholder and fixing up
later label addresses; reverse iteration makes a single pass suffice. -/
def elGo (i : Nat) (instrs : List (List PyVal)) (labels : List (PyVal × Nat)) :
    Except Err (List (List PyVal) × List (PyVal × Nat)) :=
  match i with
  | 0 => elStep 0 instrs labels
  | i + 1 =>
    match elStep (i + 1) instrs labels with
    | .error e => .error e
    | .ok (instrs2, labels2) => elGo i instrs2 labels2

/-- Modelled from the spec: the resolver entry point over the parsed
instruction list and symbol table. -/
def encodeLabels (instrs : List (List PyVal)) (labels : List (PyVal × Nat)) :
    Except Err (List (List PyVal) × List (PyVal × Nat)) :=
  elGo (instrs.length - 1) instrs labels

/-- The assembler pipeline on source text (assembler.py lines 11-19):
tokenize, parse, resolve labels (spec-modelled), then encode each
instruction to its byte as write_code does (codewriter.py lines 24-26). -/
def assembleSource (text : String) : Except Err (List Int) :=
  match tokenizeText text with
  | .error e => .error e
  | .ok tokens =>
    match parseTokens tokens with
    | .error e => .error e
    | .ok st =>
      match encodeLabels st.instructions st.labels with
      | .error e => .error e
      | .ok (instrs, _) => instrs.mapM instructionValue

/-! ## PositionedString of the rewritten text utilities
(src/text_utils/positioned_string.py) -/

/-- A PositionedString: raw text plus one (line, column) coordinate per
character. -/
structure PosString where
  text : List Char
  coordinates : List (Nat × Nat)
deriving DecidableEq

/-- PositionedString.__getitem__ on a slice key a:b with both bounds given
and nonnegative (positioned_string.py lines 156-160): Python slicing takes
the characters from a up to b, clamped to the string length, and the
coordinate list is sliced the same way. -/
def psSlice (t : PosString) (a b : Nat) : PosString :=
  ⟨(t.text.drop a).take (b - a), (t.coordinates.drop a).take (b - a)⟩

/-! ## Concrete machines used by the claim theorems -/

/-- The blank 20 x 4 display. -/
def dispInit : DState := ⟨0, 1, List.replicate 4 (List.replicate 20 ' ')⟩

/-- A machine about to execute jgt (0x19, signed-mode jump on bit 0) with
X = 127 and jump target H:L = 3:5. -/
def c4Computer : Computer :=
  ⟨5, 3, 0, 127, 0, 0, false, false, fun _ => 0,
   fun a => if a = 0 then 0x19 else 0, dispInit⟩

/-- The token row of the single instruction ldb n: the tokenizer stores
the literal as a PositionObject. -/
def ldbToks (n : Int) : List (List (String × PyVal)) :=
  [[(("keyword" : String), PyVal.s ("ldb")), (("integer" : String), PyVal.p n)]]

/-- The instructions the parser emits for ldb of an integer literal n
(derived below from writeLoad): one load when the lower byte is small,
otherwise the load of the complement followed by not L L; both loads carry
the PositionObject-wrapped byte. -/
def ldbEmit (n : Int) : List (List PyVal) :=
  if Int.emod n 256 ≤ 127 then [[.s ("ldb"), .p (Int.emod n 256)]]
  else [[.s ("ldb"), .p (255 - Int.emod n 256)], [.s ("not"), .s ("L"), .s ("L")]]

/-- A parser state as it stands before a load is written (two seeded
nops). -/
def c1PState : PState := ⟨[], 0, 0, [], [], [[.s ("nop")], [.s ("nop")]], [], []⟩

/-- The lexer state at the start of the text -5: the cursor sits on the
minus sign. -/
def c8Ts : TokState :=
  ⟨(mkLinedCode ("-5")).toOption.getD ⟨[], 0⟩, [[]]⟩

/-- The same cursor advanced past the minus sign. -/
def c8Lc2 : LinedCode :=
  ((lcMatch c8Ts.code [Char.ofNat 45]).map Prod.snd).toOption.getD ⟨[], 0⟩

/-- Token rows of the two-line source: a hlt line, then a line defining the
label loop and loading its address with ldb loop. -/
def c6Toks : List (List (String × PyVal)) :=
  [[(("keyword" : String), PyVal.s ("hlt"))],
   [(("identifier" : String), PyVal.s ("loop")), (("label" : String), PyVal.s (":")),
    (("keyword" : String), PyVal.s ("ldb")), (("identifier" : String), PyVal.s ("loop"))]]

/-- The parser state this program parses to: the label loop recorded at
instruction index 3 and a pending ldb placeholder naming it. -/
def c6St : PState :=
  ⟨c6Toks, 2, 0, [(PyVal.s ("loop"), 3)], [],
   [[PyVal.s ("nop")], [PyVal.s ("nop")], [PyVal.s ("hlt")],
    [PyVal.s ("ldb"), PyVal.s ("loop")], [PyVal.s ("hlt")]],
   [PyVal.s ("loop")], []⟩


/-! ## Claim theorems -/

/-- Python list.insert at the current length appends. -/
theorem pyInsert_at_length {α : Type} (l : List α) (a : α) :
    pyInsert l l.length a = l ++ [a] := by
  simp [pyInsert]

/-- An ALU step never writes the input flag. -/
theorem executeAl_IF (c : Computer) (a m o : Nat) : (executeAl c a m o).IF = c.IF := by
  simp only [executeAl]
  split <;> rfl

/-- A RAM write never writes the input flag. -/
theorem writeMem_IF (c : Computer) (v : Nat) : (writeMem c v).IF = c.IF := rfl

/-- C10: no executed instruction ever clears (or changes) the input flag
IF: a single Computer.execute step preserves IF in every dispatch branch,
including jump steps; and Computer.input is the only writer, setting IF to
true.  Hence once input has raised IF it stays raised across all later
execute steps. -/
theorem c10_input_flag_preserved :
    (∀ c : Computer, (execute c).IF = c.IF) ∧
    (∀ (c : Computer) (v : Nat), (Computer.input c v).IF = true) := by
  constructor
  · intro c
    simp [execute, apply_ite (fun x : Computer => x.IF), executeAl_IF, writeMem_IF]
  · intro c v
    rfl

/-- Python list.insert twice at the same former length: the second element
lands in front of the first. -/
theorem pyInsert_two {α : Type} (l : List α) (a b : α) :
    pyInsert (pyInsert l l.length a) l.length b = l ++ [b, a] := by
  simp [pyInsert, List.take_left, List.drop_left]

/-- An Except-valued map over a list stops at the first failing element. -/
theorem mapM_head_err {α : Type} (f : α → Except Err Int) (a : α)
    (l : List α) (e : Err) (ha : f a = .error e) :
    (a :: l).mapM f = .error e := by
  simp [List.mapM, List.mapM.loop, ha, bind, Except.bind]

/-- The encoder raises TypeError on any wrapped ldb operand: 0x80 | value
finds no __or__ acceptance on int and no __ror__ on PositionObject. -/
theorem iv_ldb_wrapped (b : Int) :
    instructionValue [.s ("ldb"), .p b] = .error (.pyErr ("TypeError")) := rfl

/-- write_load on a wrapped integer ldb argument appends exactly the
ldbEmit expansion to the instruction list and reports its length. -/
theorem writeLoad_ldb_wrapped (n : Int) (st : PState) :
    writeLoad (.s ("ldb")) ("integer") (.p n) Option.none st =
      .ok ((ldbEmit n).length,
           {st with instructions := st.instructions ++ ldbEmit n}) := by
  have hb0 : 0 ≤ Int.emod n 256 := Int.emod_nonneg n (by norm_num)
  have hb1 : Int.emod n 256 < 256 := Int.emod_lt_of_pos n (by norm_num)
  simp only [writeLoad, reduceIte, Option.getD_none]
  rw [if_neg (by decide : ¬("integer" : String) = "identifier")]
  by_cases hc : Int.emod n 256 ≤ 127
  · rw [if_pos ⟨hb0, hc⟩, pyInsert_at_length]
    simp [ldbEmit, if_pos hc]
  · rw [if_neg (by omega : ¬(0 ≤ Int.emod n 256 ∧ Int.emod n 256 ≤ 127))]
    rw [pyInsert_two]
    have harg : (-Int.emod n 256 - 1).emod 256 = 255 - Int.emod n 256 := by
      show (-(n % 256) - 1) % 256 = 255 - n % 256
      omega
    rw [harg]
    simp [ldbEmit, if_neg hc]

/-- C1, code bug: for an in-range integer literal n, write_load does emit
exactly one instruction when the lower byte of n is below 128 and exactly
two otherwise (the load of the masked complement followed by not L L),
as the claim says -- but the emitted loads carry the tokenizer's
PositionObject wrapper, and the encoder's 0x80 | instruction[1]
(codewriter.py line 93) raises TypeError on the wrapper (no __ror__), so
the byte sequence the claim asks to execute is never produced and no load
of a literal can ever be encoded or run. -/
theorem c1_ldb_literal_never_encodes (n : Int)
    (_h1 : -32768 ≤ n) (_h2 : n < 65536) (st : PState) :
    writeLoad (.s ("ldb")) ("integer") (.p n) Option.none st =
      .ok ((ldbEmit n).length,
           {st with instructions := st.instructions ++ ldbEmit n}) ∧
    (Int.emod n 256 < 128 →
      ldbEmit n = [[.s ("ldb"), .p (Int.emod n 256)]]) ∧
    (128 ≤ Int.emod n 256 →
      ldbEmit n = [[.s ("ldb"), .p (255 - Int.emod n 256)],
                   [.s ("not"), .s ("L"), .s ("L")]]) ∧
    (ldbEmit n).mapM instructionValue = .error (.pyErr ("TypeError")) := by
  have hb0 : 0 ≤ Int.emod n 256 := Int.emod_nonneg n (by norm_num)
  have hb1 : Int.emod n 256 < 256 := Int.emod_lt_of_pos n (by norm_num)
  refine ⟨writeLoad_ldb_wrapped n st, ?_, ?_, ?_⟩
  · intro hlt
    simp [ldbEmit, if_pos (by omega : Int.emod n 256 ≤ 127)]
  · intro hge
    simp [ldbEmit, if_neg (by omega : ¬ Int.emod n 256 ≤ 127)]
  · by_cases hc : Int.emod n 256 ≤ 127
    · simp only [ldbEmit, if_pos hc]
      exact mapM_head_err _ _ _ _ (iv_ldb_wrapped _)
    · simp only [ldbEmit, if_neg hc]
      exact mapM_head_err _ _ _ _ (iv_ldb_wrapped _)

/-- C1 witness: the theorem applied at n = 384 (lower byte 0x80) on the
freshly seeded parser state: two instructions are emitted and their
encoding fails with TypeError. -/
theorem c1_ldb_literal_never_encodes_witness :
    ((-32768 : Int) ≤ 384 ∧ (384 : Int) < 65536) ∧
    ldbEmit 384 = [[.s ("ldb"), .p 127], [.s ("not"), .s ("L"), .s ("L")]] ∧
    (ldbEmit 384).mapM instructionValue = .error (.pyErr ("TypeError")) := by
  have h := c1_ldb_literal_never_encodes 384 (by decide) (by decide) c1PState
  refine ⟨⟨by decide, by decide⟩, ?_, h.2.2.2⟩
  have h2 := h.2.2.1 (by decide)
  rw [h2]
  decide

/-- C2, counterexample: the encoder maps mov X X to 0x20, not to the nop
byte 0x01 as the claim states for every register. -/
theorem c2_mov_xx_counterexample :
    instructionValue [.s ("mov"), .s ("X"), .s ("X")] = .ok 0x20 ∧
    (0x20 : Int) ≠ 0x01 := by
  exact ⟨by decide, by decide⟩

/-- C2, amended: mov r r encodes as nop (0x01) exactly for the registers M
and Y; mov X X gives 0x20 and mov L L gives 0x25 (bytes that merely copy a
register onto itself), while mov I I and mov H H raise an ArgumentError
because I cannot be a destination and H cannot be a source. -/
theorem c2_mov_same_register_amended :
    instructionValue [.s ("mov"), .s ("M"), .s ("M")] = .ok 0x01 ∧
    instructionValue [.s ("mov"), .s ("Y"), .s ("Y")] = .ok 0x01 ∧
    instructionValue [.s ("mov"), .s ("X"), .s ("X")] = .ok 0x20 ∧
    instructionValue [.s ("mov"), .s ("L"), .s ("L")] = .ok 0x25 ∧
    instructionValue [.s ("mov"), .s ("I"), .s ("I")] = .error (.compiler ("Argument")) ∧
    instructionValue [.s ("mov"), .s ("H"), .s ("H")] = .error (.compiler ("Argument")) := by
  decide

/-- C5, code bug: the membership test that should reject Y and H as the
argument of opd/opi tests against the list containing Y only, so opd H and
opi H are accepted and encode as 0x0E and 0x0A (the opd I / opi I bytes),
while Y is rejected; the other registers encode as 0x08 or d shifted or
their code. -/
theorem c5_op_argument_check :
    instructionValue [.s ("opd"), .s ("H")] = .ok 0x0E ∧
    instructionValue [.s ("opi"), .s ("H")] = .ok 0x0A ∧
    instructionValue [.s ("opd"), .s ("Y")] = .error (.compiler ("Argument")) ∧
    instructionValue [.s ("opi"), .s ("Y")] = .error (.compiler ("Argument")) ∧
    instructionValue [.s ("opd"), .s ("X")] = .ok 0x0C ∧
    instructionValue [.s ("opd"), .s ("L")] = .ok 0x0D ∧
    instructionValue [.s ("opd"), .s ("I")] = .ok 0x0E ∧
    instructionValue [.s ("opi"), .s ("X")] = .ok 0x08 ∧
    instructionValue [.s ("opi"), .s ("L")] = .ok 0x09 ∧
    instructionValue [.s ("opi"), .s ("I")] = .ok 0x0A := by
  decide

/-- C3, code bug: write_load never gets to emit the claimed expansion for
an integer ldu: line 485 computes (value >> 8) & 0xFF on the
PositionObject-wrapped literal, and the wrapper has no __rshift__ (nor has
int a matching reflected method), so parsing any ldu with an integer
literal -- bit 7 of the upper byte set or not -- raises TypeError inside
write_load; no instructions are emitted and the encoder is never
reached. -/
theorem c3_ldu_literal_shift_type_error :
    (∀ (e : Int) (st : PState),
      writeLoad (.s ("ldu")) ("integer") (.p e) Option.none st =
        .error (.pyErr ("TypeError"))) ∧
    tokenizeText ("ldu 0x8000") =
      .ok [[(("keyword" : String), PyVal.s ("ldu")),
            (("integer" : String), PyVal.p 32768)]] ∧
    parseTokens [[(("keyword" : String), PyVal.s ("ldu")),
                  (("integer" : String), PyVal.p 32768)]] =
      .error (.pyErr ("TypeError")) ∧
    assembleSource ("ldu 0x8000") = .error (.pyErr ("TypeError")) := by
  refine ⟨fun e st => rfl, by decide, by decide, by decide⟩

/-- C4, code bug: in signed mode the source tests 0 < X < 127, so for
X = 127 (signed-positive, sign bit clear) the bit-0 jump is not taken: jgt
with X = 127 and target H:L = 3:5 = 773 merely advances PC to 1. -/
theorem c4_x127_jump_not_taken :
    c4Computer.X = 127 ∧ c4Computer.ROM 0 = 0x19 ∧
    bit 0x19 3 = 1 ∧ bit 0x19 0 = 1 ∧
    (execute c4Computer).PC = 1 ∧ (execute c4Computer).PC ≠ 3 * 256 + 5 := by
  decide

/-- C7, code bug: neither claimed byte list is ever produced.  Parsing
emits the expected instructions (ldb 0x42 wrapped; for ldb 0x80 the load
of the wrapped complement 0x7F then not L L), but the operands are
PositionObjects and the encoding of the first load raises TypeError at
codewriter.py line 93 (0x80 | wrapper, no __ror__), so both assemblies
fail.  In isolation, on the plain ints the resolver would deliver, ldb
0x42 would encode to 0xC2 as claimed, but not L L encodes to 0x43 (the
ALU family byte), not the 0x03 the claim names. -/
theorem c7_ldb_sources_never_assemble :
    assembleSource ("ldb 0x42") = .error (.pyErr ("TypeError")) ∧
    assembleSource ("ldb 0x80") = .error (.pyErr ("TypeError")) ∧
    tokenizeText ("ldb 0x42") = .ok (ldbToks 0x42) ∧
    (parseTokens (ldbToks 0x42)).map (fun st => st.instructions) =
      .ok [[.s ("nop")], [.s ("nop")], [.s ("ldb"), .p 0x42], [.s ("hlt")]] ∧
    (parseTokens (ldbToks 0x80)).map (fun st => st.instructions) =
      .ok [[.s ("nop")], [.s ("nop")], [.s ("ldb"), .p 0x7F],
           [.s ("not"), .s ("L"), .s ("L")], [.s ("hlt")]] ∧
    instructionValue [.s ("ldb"), .i 0x42] = .ok 0xC2 ∧
    instructionValue [.s ("not"), .s ("L"), .s ("L")] = .ok 0x43 := by
  refine ⟨by decide, by decide, by decide, by decide, by decide, by decide,
    by decide⟩

/-- C8, counterexample: lexing the text -5 produces the single integer
token with the negative value -5; the minus sign is consumed into the
integer token and no minus symbol token is emitted. -/
theorem c8_minus_five_counterexample :
    tokenizeText ("-5") = .ok [[(("integer" : String), PyVal.p (-5))]] ∧
    (-5 : Int) < 0 := by
  refine ⟨by decide, by decide⟩

/-- C9, counterexample: Python slicing clamps at the string length, so for
the one-character string the slice 0:2 has length 1, not 2 - 0 as the claim
states for all indices a lesser-equal b. -/
theorem c9_slice_clamp_counterexample :
    (psSlice ⟨['x'], [(0, 0)]⟩ 0 2).text.length = 1 ∧
    (psSlice ⟨['x'], [(0, 0)]⟩ 0 2).text.length ≠ 2 - 0 := by
  decide

/-- C9, amended: for indices a lesser-equal b with b within the string, and
with the coordinate list parallel to the text (the class invariant), the
slice a:b has length exactly b - a and character i of the slice keeps the
coordinate it carried in the original string. -/
theorem c9_slice_length_and_coordinates (t : PosString) (a b : Nat)
    (_hab : a ≤ b) (hb : b ≤ t.text.length)
    (hpar : t.coordinates.length = t.text.length) :
    (psSlice t a b).text.length = b - a ∧
    ∀ i, i < b - a →
      (psSlice t a b).coordinates.get? i = t.coordinates.get? (a + i) := by
  constructor
  · simp [psSlice]
    omega
  · intro i hi
    simp only [psSlice, List.get?_eq_getElem?]
    rw [List.getElem?_take_of_lt hi, List.getElem?_drop]

/-- C9 witness: the amended slice theorem at a concrete two-character
string. -/
theorem c9_slice_witness :
    ((0 : Nat) ≤ 1 ∧ (1 : Nat) ≤ 2 ∧ (2 : Nat) = 2) ∧
    ((psSlice ⟨['h', 'i'], [(0, 0), (0, 1)]⟩ 0 1).text.length = 1 - 0 ∧
     ∀ i, i < 1 - 0 →
       (psSlice ⟨['h', 'i'], [(0, 0), (0, 1)]⟩ 0 1).coordinates.get? i =
         [((0 : Nat), (0 : Nat)), (0, 1)].get? (0 + i)) :=
  ⟨by decide, c9_slice_length_and_coordinates ⟨['h', 'i'], [(0, 0), (0, 1)]⟩ 0 1
    (by decide) (by decide) (by decide)⟩



/-- The expression parser returns with the instruction list and the label table
of the state it was given. -/
theorem parseExpr_fields (fuel : Nat) :
    ∀ k st r st', parseExpr fuel k st = .ok (r, st') →
      st'.instructions = st.instructions ∧ st'.labels = st.labels := by
  induction fuel with
  | zero =>
    intro k st r st' h
    simp [parseExpr] at h
  | succ f ih =>
    intro k st r st' h
    cases k with
    | orE =>
      simp only [parseExpr] at h
      cases he : parseExpr f .andE st with
      | error e => rw [he] at h; cases h
      | ok p =>
        obtain ⟨v, st1⟩ := p
        rw [he] at h; try dsimp only at h
        by_cases hq : tokValue st1 0 = .s ("|")
        · rw [if_pos hq] at h; cases h
        · rw [if_neg hq] at h; cases h; exact ih _ _ _ _ he
    | andE =>
      simp only [parseExpr] at h
      cases he : parseExpr f .arithE st with
      | error e => rw [he] at h; cases h
      | ok p =>
        obtain ⟨v, st1⟩ := p
        rw [he] at h; try dsimp only at h
        by_cases hq : tokValue st1 0 = .s ("&")
        · rw [if_pos hq] at h; cases h
        · rw [if_neg hq] at h; cases h; exact ih _ _ _ _ he
    | arithE =>
      simp only [parseExpr] at h
      cases he : parseExpr f (.unaryE false false) st with
      | error e => rw [he] at h; cases h
      | ok p =>
        obtain ⟨v, st1⟩ := p
        rw [he] at h; try dsimp only at h
        by_cases hq : tokValue st1 0 = .s ("+") ∨ tokValue st1 0 = .s ("-")
        · rw [if_pos hq] at h; cases h
        · rw [if_neg hq] at h; cases h; exact ih _ _ _ _ he
    | unaryE minus invert =>
      simp only [parseExpr] at h
      by_cases hm : tokValue st 0 = .s ("-")
      · rw [if_pos hm] at h
        have := ih (.unaryE (!minus) invert) {st with index := st.index + 1} r st' h
        simpa using this
      · rw [if_neg hm] at h
        by_cases hb : tokValue st 0 = .s ("!")
        · rw [if_pos hb] at h
          have := ih (.unaryE minus (!invert)) {st with index := st.index + 1} r st' h
          simpa using this
        · rw [if_neg hb] at h
          cases he : parseExpr f .primE st with
          | error e => rw [he] at h; cases h
          | ok p =>
            obtain ⟨v, st1⟩ := p
            rw [he] at h; try dsimp only at h
            have hfields := ih _ _ _ _ he
            cases hn : (if minus = true then pyNeg v else Except.ok v) with
            | error e => rw [hn] at h; cases h
            | ok v1 =>
              rw [hn] at h; try dsimp only at h
              cases hv : (if invert = true then pyInvert v1 else Except.ok v1) with
              | error e => rw [hv] at h; cases h
              | ok v2 => rw [hv] at h; cases h; exact hfields
    | primE =>
      simp only [parseExpr] at h
      by_cases h1 : tokType st 0 = "identifier"
      · rw [if_pos h1] at h
        cases ha : alook st.constants (tokValue st 0) with
        | some stored => rw [ha] at h; cases h; exact ⟨rfl, rfl⟩
        | none => rw [ha] at h; cases h
      · rw [if_neg h1] at h
        by_cases h2 : tokType st 0 = "integer"
        · rw [if_pos h2] at h
          cases hv : tokValue st 0 with
          | i m =>
            rw [hv] at h; try dsimp only at h
            by_cases h3 : ¬(-32768 ≤ m ∧ m < 65536)
            · rw [if_pos h3] at h; cases h
            · rw [if_neg h3] at h; cases h; exact ⟨rfl, rfl⟩
          | p m =>
            rw [hv] at h; try dsimp only at h
            by_cases h3 : ¬(-32768 ≤ m ∧ m < 65536)
            · rw [if_pos h3] at h; cases h
            · rw [if_neg h3] at h; cases h; exact ⟨rfl, rfl⟩
          | s x => rw [hv] at h; cases h
          | co t w => rw [hv] at h; cases h
          | noneV => rw [hv] at h; cases h
        · rw [if_neg h2] at h
          by_cases h4 : tokValue st 0 = .s ("(")
          · rw [if_pos h4] at h
            cases he : parseExpr f .orE {st with index := st.index + 1} with
            | error e => rw [he] at h; cases h
            | ok p =>
              obtain ⟨v, st1⟩ := p
              rw [he] at h; try dsimp only at h
              by_cases h5 : tokValue st1 0 = .s (")")
              · rw [if_pos h5] at h
                cases h
                have := ih _ _ _ _ he
                simpa using this
              · rw [if_neg h5] at h; cases h
          · rw [if_neg h4] at h; cases h

/-- parse_constant_expression (parser.py) leaves the instruction list and the
label table unchanged. -/
theorem parseConstExpr_fields (fuel : Nat) (st : PState) (r : String × PyVal)
    (st' : PState) (h : parseConstantExpression fuel st = .ok (r, st')) :
    st'.instructions = st.instructions ∧ st'.labels = st.labels := by
  unfold parseConstantExpression at h
  by_cases hc : tokType st 0 = "identifier" ∧ (alook st.constants (tokValue st 0)).isNone
  · rw [if_pos hc] at h
    cases h
    exact ⟨rfl, rfl⟩
  · rw [if_neg hc] at h
    unfold parseOrExpr at h
    cases he : parseExpr fuel .orE st with
    | error e => rw [he] at h; cases h
    | ok p =>
      obtain ⟨v, st1⟩ := p
      rw [he] at h; try dsimp only at h
      cases h
      exact parseExpr_fields fuel _ _ _ _ he

/-- write_load with no insertion index only appends instructions and leaves the
label table unchanged. -/
theorem writeLoad_extends (instr : PyVal) (ty : String) (v : PyVal)
    (st : PState) (k : Nat) (st' : PState)
    (h : writeLoad instr ty v Option.none st = .ok (k, st')) :
    (∃ add, st'.instructions = st.instructions ++ add) ∧ st'.labels = st.labels := by
  simp only [writeLoad, Option.getD_none] at h
  by_cases h1 : ty = "identifier"
  · rw [if_pos h1] at h
    cases h
    exact ⟨⟨_, pyInsert_at_length _ _⟩, rfl⟩
  · rw [if_neg h1] at h
    by_cases h2 : ty = "integer"
    · rw [if_pos h2] at h
      cases v with
      | i n =>
        try dsimp only at h
        set b : Int := if instr = PyVal.s ("ldb") then Int.emod n 256
                       else Int.emod (Int.ediv n 256) 256 with hbdef
        by_cases hb : 0 ≤ b ∧ b ≤ 127
        · rw [if_pos hb] at h
          cases h
          exact ⟨⟨_, pyInsert_at_length _ _⟩, rfl⟩
        · rw [if_neg hb] at h
          cases h
          exact ⟨⟨_, pyInsert_two _ _ _⟩, rfl⟩
      | p n =>
        try dsimp only at h
        by_cases hld : instr = PyVal.s ("ldb")
        · rw [if_pos hld] at h; try dsimp only at h
          by_cases hb : 0 ≤ Int.emod n 256 ∧ Int.emod n 256 ≤ 127
          · rw [if_pos hb] at h
            cases h
            exact ⟨⟨_, pyInsert_at_length _ _⟩, rfl⟩
          · rw [if_neg hb] at h
            cases h
            exact ⟨⟨_, pyInsert_two _ _ _⟩, rfl⟩
        · rw [if_neg hld] at h; cases h
      | s x => cases h
      | co t w => cases h
      | noneV => cases h
    · rw [if_neg h2] at h
      cases h

/-- write_lda only appends instructions and leaves the label table unchanged. -/
theorem writeLda_extends (fuel : Nat) (st st' : PState)
    (h : writeLda fuel st = .ok st') :
    (∃ add, st'.instructions = st.instructions ++ add) ∧ st'.labels = st.labels := by
  unfold writeLda at h
  cases hc : parseConstantExpression fuel st with
  | error e => rw [hc] at h; cases h
  | ok p =>
    obtain ⟨⟨ty, v⟩, st1⟩ := p
    rw [hc] at h; try dsimp only at h
    have f1 := parseConstExpr_fields fuel st _ st1 hc
    cases hw : writeLoad (.s ("ldu")) ty v Option.none st1 with
    | error e => rw [hw] at h; cases h
    | ok q =>
      obtain ⟨k2, st2⟩ := q
      rw [hw] at h; try dsimp only at h
      have f2 := writeLoad_extends _ _ _ _ _ _ hw
      cases hw2 : writeLoad (.s ("ldb")) ty v Option.none
          {st2 with instructions := st2.instructions ++ [[.s ("mov"), .s ("L"), .s ("H")]]} with
      | error e => rw [hw2] at h; cases h
      | ok q2 =>
        obtain ⟨k3, st4⟩ := q2
        rw [hw2] at h; try dsimp only at h
        cases h
        have f3 := writeLoad_extends _ _ _ _ _ _ hw2
        obtain ⟨⟨a2, e2⟩, l2⟩ := f2
        obtain ⟨⟨a3, e3⟩, l3⟩ := f3
        refine ⟨⟨?_, ?_⟩, ?_⟩
        · exact a2 ++ [[.s ("mov"), .s ("L"), .s ("H")]] ++ a3
        · rw [e3]
          dsimp only
          rw [e2, f1.1]
          simp
        · rw [l3]
          dsimp only
          rw [l2, f1.2]

/-- parse_label keeps the instruction list; it either keeps the label table or
records one new label at the current instruction count. -/
theorem parseLabel_ok (st : PState) (b : Bool) (st' : PState)
    (h : parseLabel st = .ok (b, st')) :
    st'.instructions = st.instructions ∧
    (st'.labels = st.labels ∨
     st'.labels = st.labels ++ [(tokValue st 0, st.instructions.length)]) := by
  unfold parseLabel at h
  by_cases h1 : tokType st 0 = "identifier" ∧ tokValue st 1 = PyVal.s (":")
  · rw [if_pos h1] at h
    by_cases h2 : (alook st.labels (tokValue st 0)).isSome ∨
                  (alook st.constants (tokValue st 0)).isSome
    · rw [if_pos h2] at h; cases h
    · rw [if_neg h2] at h
      cases h
      exact ⟨rfl, Or.inr rfl⟩
  · rw [if_neg h1] at h
    cases h
    exact ⟨rfl, Or.inl rfl⟩

/-- parse_definition leaves the instruction list and the label table unchanged. -/
theorem parseDefinition_fields (fuel : Nat) (st : PState) (b : Bool) (st' : PState)
    (h : parseDefinition fuel st = .ok (b, st')) :
    st'.instructions = st.instructions ∧ st'.labels = st.labels := by
  unfold parseDefinition at h
  by_cases h1 : ¬(tokType st 0 = "keyword" ∧ tokValue st 0 = PyVal.s ("define"))
  · rw [if_pos h1] at h
    cases h
    exact ⟨rfl, rfl⟩
  · rw [if_neg h1] at h
    by_cases h2 : tokType st 1 ≠ "identifier"
    · rw [if_pos h2] at h; cases h
    · rw [if_neg h2] at h
      try dsimp only at h
      by_cases h3 : (alook st.labels (tokValue st 1)).isSome ∨
                    (alook st.constants (tokValue st 1)).isSome
      · rw [if_pos h3] at h; cases h
      · rw [if_neg h3] at h
        cases hc : parseConstantExpression fuel {st with index := st.index + 2} with
        | error e => rw [hc] at h; cases h
        | ok p =>
          obtain ⟨⟨ty, v⟩, st2⟩ := p
          rw [hc] at h; try dsimp only at h
          have f1 := parseConstExpr_fields fuel _ _ _ hc
          by_cases h4 : v = PyVal.noneV
          · rw [if_pos h4] at h; cases h
          · rw [if_neg h4] at h
            cases h
            dsimp only
            simpa using f1

/-- parse_instruction only appends instructions and leaves the label table
unchanged. -/
theorem parseInstruction_extends (fuel : Nat) (st : PState) (b : Bool) (st' : PState)
    (h : parseInstruction fuel st = .ok (b, st')) :
    (∃ add, st'.instructions = st.instructions ++ add) ∧ st'.labels = st.labels := by
  unfold parseInstruction at h
  by_cases h1 : tokType st 0 ≠ "keyword"
  · rw [if_pos h1] at h
    cases h
    exact ⟨⟨[], by simp⟩, rfl⟩
  · rw [if_neg h1] at h
    cases hf : instFormats (tokValue st 0) with
    | some fmts =>
      rw [hf] at h; try dsimp only at h
      cases hargs : collectArgs st fmts 0 with
      | error e => rw [hargs] at h; cases h
      | ok args =>
        rw [hargs] at h; try dsimp only at h
        cases h
        exact ⟨⟨_, rfl⟩, rfl⟩
    | none =>
      rw [hf] at h; try dsimp only at h
      by_cases h2 : tokValue st 0 = PyVal.s ("ldb") ∨ tokValue st 0 = PyVal.s ("ldu")
      · rw [if_pos h2] at h
        cases hc : parseConstantExpression fuel {st with index := st.index + 1} with
        | error e => rw [hc] at h; cases h
        | ok p =>
          obtain ⟨⟨ty, v⟩, st2⟩ := p
          rw [hc] at h; try dsimp only at h
          have f1 := parseConstExpr_fields fuel _ _ _ hc
          cases hw : writeLoad (tokValue st 0) ty v Option.none st2 with
          | error e => rw [hw] at h; cases h
          | ok q =>
            obtain ⟨k, st3⟩ := q
            rw [hw] at h; try dsimp only at h
            cases h
            have f2 := writeLoad_extends _ _ _ _ _ _ hw
            obtain ⟨⟨a2, e2⟩, l2⟩ := f2
            refine ⟨⟨a2, ?_⟩, ?_⟩
            · rw [e2, f1.1]
            · rw [l2, f1.2]
      · rw [if_neg h2] at h
        by_cases h3 : tokValue st 0 = PyVal.s ("lda")
        · rw [if_pos h3] at h
          cases hw : writeLda fuel {st with index := st.index + 1} with
          | error e => rw [hw] at h; cases h
          | ok st2 =>
            rw [hw] at h; try dsimp only at h
            cases h
            have f2 := writeLda_extends fuel _ _ hw
            simpa using f2
        · rw [if_neg h3] at h
          cases h
          exact ⟨⟨[], by simp⟩, rfl⟩

/-- parse_program preserves the two seeded leading nops and keeps every recorded
label at index at least 2: labels are recorded at the current instruction
count, which never drops below the two seeds. -/
theorem parseProgram_inv (fuel : Nat) :
    ∀ st st', parseProgram fuel st = .ok st' →
      (∃ r0, st.instructions = [PyVal.s ("nop")] :: [PyVal.s ("nop")] :: r0) →
      (∀ p ∈ st.labels, 2 ≤ p.2) →
      (∃ r1, st'.instructions = [PyVal.s ("nop")] :: [PyVal.s ("nop")] :: r1) ∧
      (∀ p ∈ st'.labels, 2 ≤ p.2) := by
  induction fuel with
  | zero =>
    intro st st' h _ _
    simp [parseProgram] at h
  | succ f ih =>
    intro st st' h hshape hlab
    unfold parseProgram at h
    cases hd : parseDefinition f st with
    | error e => rw [hd] at h; cases h
    | ok p =>
      obtain ⟨defn, st1⟩ := p
      rw [hd] at h; try dsimp only at h
      have fd := parseDefinition_fields f st defn st1 hd
      have hshape1 : ∃ r0, st1.instructions =
          [PyVal.s ("nop")] :: [PyVal.s ("nop")] :: r0 := fd.1 ▸ hshape
      have hlab1 : ∀ p ∈ st1.labels, 2 ≤ p.2 := fd.2 ▸ hlab
      cases defn with
      | true =>
        rw [if_pos rfl] at h
        try dsimp only at h
        by_cases hlen : (tokLine st1).length ≤ st1.index
        · rw [if_pos hlen] at h
          try dsimp only at h
          by_cases hline : st1.line + 1 = st1.tokens.length
          · rw [if_pos hline] at h
            cases h
            exact ⟨hshape1, hlab1⟩
          · rw [if_neg hline] at h
            exact ih _ _ h hshape1 hlab1
        · rw [if_neg hlen] at h; cases h
      | false =>
        rw [if_neg (by simp)] at h
        cases hpl : parseLabel st1 with
        | error e => rw [hpl] at h; cases h
        | ok q =>
          obtain ⟨b2, st2⟩ := q
          rw [hpl] at h; try dsimp only at h
          have fl := parseLabel_ok st1 b2 st2 hpl
          have hshape2 : ∃ r0, st2.instructions =
              [PyVal.s ("nop")] :: [PyVal.s ("nop")] :: r0 := fl.1 ▸ hshape1
          have hlab2 : ∀ p ∈ st2.labels, 2 ≤ p.2 := by
            cases fl.2 with
            | inl he => rw [he]; exact hlab1
            | inr he =>
              rw [he]
              intro p hp
              rcases List.mem_append.mp hp with hmem | hmem
              · exact hlab1 p hmem
              · rcases List.mem_singleton.mp hmem with rfl
                obtain ⟨r0, hr⟩ := hshape1
                simp [hr]
          cases hpi : parseInstruction f st2 with
          | error e => rw [hpi] at h; cases h
          | ok q3 =>
            obtain ⟨b3, st4⟩ := q3
            rw [hpi] at h; try dsimp only at h
            have fi := parseInstruction_extends f st2 b3 st4 hpi
            obtain ⟨⟨add, hadd⟩, hlabeq⟩ := fi
            have hshape4 : ∃ r0, st4.instructions =
                [PyVal.s ("nop")] :: [PyVal.s ("nop")] :: r0 := by
              obtain ⟨r0, hr⟩ := hshape2
              exact ⟨r0 ++ add, by rw [hadd, hr]; simp⟩
            have hlab4 : ∀ p ∈ st4.labels, 2 ≤ p.2 := hlabeq ▸ hlab2
            by_cases hlen : (tokLine st4).length ≤ st4.index
            · rw [if_pos hlen] at h
              try dsimp only at h
              by_cases hline : st4.line + 1 = st4.tokens.length
              · rw [if_pos hline] at h
                cases h
                exact ⟨hshape4, hlab4⟩
              · rw [if_neg hline] at h
                exact ih _ _ h hshape4 hlab4
            · rw [if_neg hlen] at h; cases h

/-- Every successful parse yields an instruction list of the form nop, nop,
middle, hlt, with every label in the symbol table at index at least 2. -/
theorem parseTokens_shape (tokens : List (List (String × PyVal))) (st : PState)
    (h : parseTokens tokens = .ok st) :
    (∃ mid, st.instructions =
      [PyVal.s ("nop")] :: [PyVal.s ("nop")] :: (mid ++ [[PyVal.s ("hlt")]])) ∧
    (∀ p ∈ st.labels, 2 ≤ p.2) := by
  unfold parseTokens at h
  try dsimp only at h
  cases hp : parseProgram (totalFuel tokens)
      ⟨tokens, 0, 0, [], [], [[.s ("nop")], [.s ("nop")]], [], []⟩ with
  | error e => rw [hp] at h; cases h
  | ok stp =>
    rw [hp] at h; try dsimp only at h
    have inv := parseProgram_inv (totalFuel tokens) _ _ hp ⟨[], rfl⟩
      (by intro p hp2; cases hp2)
    cases hf : stp.usedLabels.find? (fun l => (alook stp.labels l).isNone) with
    | some x => rw [hf] at h; cases h
    | none =>
      rw [hf] at h; try dsimp only at h
      cases h
      obtain ⟨⟨r1, hr⟩, hlab⟩ := inv
      refine ⟨⟨r1, ?_⟩, hlab⟩
      dsimp only
      rw [hr]
      rfl

/-- One resolver substitution step preserves the nop-nop-middle-hlt shape (the
leading nops and the final hlt are never placeholders, so the splice happens
strictly inside the middle) and keeps every label at index at least 2 (a
two-instruction expansion only increments label addresses). -/
theorem elStep_shape (i : Nat) (instrs : List (List PyVal))
    (labels : List (PyVal × Nat)) (instrs2 : List (List PyVal))
    (labels2 : List (PyVal × Nat))
    (h : elStep i instrs labels = .ok (instrs2, labels2))
    (hs : ∃ mid, instrs =
      [PyVal.s ("nop")] :: [PyVal.s ("nop")] :: (mid ++ [[PyVal.s ("hlt")]]))
    (hl : ∀ p ∈ labels, 2 ≤ p.2) :
    (∃ mid2, instrs2 =
      [PyVal.s ("nop")] :: [PyVal.s ("nop")] :: (mid2 ++ [[PyVal.s ("hlt")]])) ∧
    (∀ p ∈ labels2, 2 ≤ p.2) := by
  obtain ⟨mid, hmid⟩ := hs
  subst hmid
  unfold elStep at h
  cases hgi : ([PyVal.s ("nop")] :: [PyVal.s ("nop")] ::
      (mid ++ [[PyVal.s ("hlt")]])).get? i with
  | none =>
    rw [hgi] at h; try dsimp only at h
    cases h
    exact ⟨⟨mid, rfl⟩, hl⟩
  | some ins =>
    rw [hgi] at h; try dsimp only at h
    cases href : isRef ins with
    | none =>
      rw [href] at h; try dsimp only at h
      cases h
      exact ⟨⟨mid, rfl⟩, hl⟩
    | some p =>
      obtain ⟨ld, name⟩ := p
      rw [href] at h; try dsimp only at h
      cases hlook : alook labels name with
      | none => rw [hlook] at h; cases h
      | some addr =>
        rw [hlook] at h; try dsimp only at h
        match i with
        | 0 =>
          rw [List.get?_cons_zero] at hgi
          injection hgi with he
          subst he
          simp [isRef] at href
        | 1 =>
          rw [List.get?_cons_succ, List.get?_cons_zero] at hgi
          injection hgi with he
          subst he
          simp [isRef] at href
        | (j + 2) =>
          rw [List.get?_cons_succ, List.get?_cons_succ] at hgi
          by_cases hj : j < mid.length
          · have hgm : mid.get? j = some ins := by
              rw [← List.get?_append hj]; exact hgi
            cases h
            constructor
            · refine ⟨mid.take j ++ specExpandLoad ld addr ++ mid.drop (j + 1), ?_⟩
              rw [List.take_succ_cons, List.take_succ_cons,
                List.take_append_of_le_length (Nat.le_of_lt hj),
                List.drop_succ_cons, List.drop_succ_cons,
                List.drop_append_of_le_length hj]
              simp [List.append_assoc]
            · intro p hp
              by_cases hexp : (specExpandLoad ld addr).length = 2
              · rw [if_pos hexp] at hp
                simp only [List.mem_map] at hp
                obtain ⟨q, hq, hfq⟩ := hp
                have h2 := hl q hq
                by_cases hlt : j + 2 < q.2
                · rw [if_pos hlt] at hfq
                  subst hfq; omega
                · rw [if_neg hlt] at hfq
                  subst hfq; exact h2
              · rw [if_neg hexp] at hp
                exact hl p hp
          · exfalso
            by_cases hje : j = mid.length
            · subst hje
              rw [List.get?_append_right (Nat.le_refl _)] at hgi
              simp at hgi
              subst hgi
              simp [isRef] at href
            · have : mid.length + 1 ≤ j := by omega
              rw [List.get?_eq_none.mpr (by simp; omega)] at hgi
              cases hgi

/-- The reverse resolver walk preserves the nop-nop-middle-hlt shape and the
label lower bound. -/
theorem elGo_shape (i : Nat) : ∀ (instrs : List (List PyVal))
    (labels : List (PyVal × Nat)) (instrs2 : List (List PyVal))
    (labels2 : List (PyVal × Nat)),
    elGo i instrs labels = .ok (instrs2, labels2) →
    (∃ mid, instrs =
      [PyVal.s ("nop")] :: [PyVal.s ("nop")] :: (mid ++ [[PyVal.s ("hlt")]])) →
    (∀ p ∈ labels, 2 ≤ p.2) →
    (∃ mid2, instrs2 =
      [PyVal.s ("nop")] :: [PyVal.s ("nop")] :: (mid2 ++ [[PyVal.s ("hlt")]])) ∧
    (∀ p ∈ labels2, 2 ≤ p.2) := by
  induction i with
  | zero =>
    intro instrs labels instrs2 labels2 h hs hl
    exact elStep_shape 0 instrs labels instrs2 labels2 h hs hl
  | succ j ih =>
    intro instrs labels instrs2 labels2 h hs hl
    unfold elGo at h
    cases hstep : elStep (j + 1) instrs labels with
    | error e => rw [hstep] at h; cases h
    | ok p =>
      obtain ⟨i2, l2⟩ := p
      rw [hstep] at h; try dsimp only at h
      have hmid := elStep_shape (j + 1) instrs labels i2 l2 hstep hs hl
      exact ih i2 l2 instrs2 labels2 h hmid.1 hmid.2

/-- Label resolution preserves the nop-nop-middle-hlt instruction shape and
keeps every label at index at least 2. -/
theorem encodeLabels_shape (instrs : List (List PyVal))
    (labels : List (PyVal × Nat)) (instrs2 : List (List PyVal))
    (labels2 : List (PyVal × Nat))
    (h : encodeLabels instrs labels = .ok (instrs2, labels2))
    (hs : ∃ mid, instrs =
      [PyVal.s ("nop")] :: [PyVal.s ("nop")] :: (mid ++ [[PyVal.s ("hlt")]]))
    (hl : ∀ p ∈ labels, 2 ≤ p.2) :
    (∃ mid2, instrs2 =
      [PyVal.s ("nop")] :: [PyVal.s ("nop")] :: (mid2 ++ [[PyVal.s ("hlt")]])) ∧
    (∀ p ∈ labels2, 2 ≤ p.2) :=
  elGo_shape (instrs.length - 1) instrs labels instrs2 labels2 h hs hl

/-- A successful mapM over a cons splits into a successful head encoding and a
successful tail mapM. -/
theorem mapM_ok_cons (f : List PyVal → Except Err Int) (a : List PyVal)
    (l : List (List PyVal)) (res : List Int)
    (h : List.mapM f (a :: l) = .ok res) :
    ∃ b t, f a = .ok b ∧ List.mapM f l = .ok t ∧ res = b :: t := by
  rw [List.mapM_cons] at h
  cases hfa : f a with
  | error e => rw [hfa] at h; simp [bind, Except.bind] at h
  | ok b =>
    rw [hfa] at h
    cases hfl : List.mapM f l with
    | error e => rw [hfl] at h; simp [bind, Except.bind] at h
    | ok t =>
      rw [hfl] at h
      simp only [bind, Except.bind, pure, Except.pure] at h
      injection h with he
      exact ⟨b, t, rfl, rfl, he.symm⟩

/-- A successful mapM over an append splits into successful mapMs of the two
parts. -/
theorem mapM_ok_append (f : List PyVal → Except Err Int)
    (l1 l2 : List (List PyVal)) (res : List Int)
    (h : List.mapM f (l1 ++ l2) = .ok res) :
    ∃ r1 r2, List.mapM f l1 = .ok r1 ∧ List.mapM f l2 = .ok r2 ∧
      res = r1 ++ r2 := by
  rw [List.mapM_append] at h
  cases h1 : List.mapM f l1 with
  | error e => rw [h1] at h; simp [bind, Except.bind] at h
  | ok r1 =>
    rw [h1] at h
    cases h2 : List.mapM f l2 with
    | error e => rw [h2] at h; simp [bind, Except.bind] at h
    | ok r2 =>
      rw [h2] at h
      simp only [bind, Except.bind, pure, Except.pure] at h
      injection h with he
      exact ⟨r1, r2, rfl, rfl, he.symm⟩

/-- C6: for every token list that parses, label-resolves and encodes without
error, the first two emitted bytes are 0x01 0x01 (the two seeded nops) and
the last byte is 0x00 (the appended hlt); consequently every label recorded
in the symbol table, both before and after label resolution, resolves to an
instruction index of at least 2, never to address 0 or 1. -/
theorem c6_program_envelope (tokens : List (List (String × PyVal)))
    (st : PState) (instrs : List (List PyVal)) (labels : List (PyVal × Nat))
    (code : List Int)
    (hp : parseTokens tokens = .ok st)
    (he : encodeLabels st.instructions st.labels = .ok (instrs, labels))
    (hc : instrs.mapM instructionValue = .ok code) :
    code.get? 0 = some 1 ∧ code.get? 1 = some 1 ∧
    code.getLast? = some 0 ∧
    (∀ p ∈ st.labels, 2 ≤ p.2) ∧ (∀ p ∈ labels, 2 ≤ p.2) := by
  obtain ⟨hshape, hlab⟩ := parseTokens_shape tokens st hp
  obtain ⟨⟨mid2, hm2⟩, hlab2⟩ := encodeLabels_shape _ _ _ _ he hshape hlab
  subst hm2
  obtain ⟨b0, t0, hb0, ht0, hc0⟩ := mapM_ok_cons _ _ _ _ hc
  obtain ⟨b1, t1, hb1, ht1, hc1⟩ := mapM_ok_cons _ _ _ _ ht0
  obtain ⟨r1, r2, hr1, hr2, hr⟩ := mapM_ok_append _ _ _ _ ht1
  obtain ⟨b2, t2, hb2, ht2, hc2⟩ := mapM_ok_cons _ _ _ _ hr2
  have hnop : instructionValue [PyVal.s ("nop")] = Except.ok 1 := by decide
  have hhlt : instructionValue [PyVal.s ("hlt")] = Except.ok 0 := by decide
  rw [hnop] at hb0 hb1
  rw [hhlt] at hb2
  injection hb0 with he0
  injection hb1 with he1
  injection hb2 with he2
  have ht2' : t2 = [] := by
    rw [List.mapM_nil] at ht2
    simp only [pure, Except.pure] at ht2
    injection ht2 with he3
    exact he3.symm
  subst he0 he1 he2 ht2' hc2 hr hc1 hc0
  refine ⟨rfl, rfl, ?_, hlab, hlab2⟩
  have hsplit : (1 : Int) :: 1 :: (r1 ++ [0]) = (1 :: 1 :: r1) ++ [0] := by simp
  rw [hsplit, List.getLast?_concat]

/-- Witness: the two-line program hlt / loop: ldb loop parses, resolves and
encodes to the bytes 01 01 00 83 00, whose first two bytes are 0x01, whose
last byte is 0x00, and whose one label loop sits at instruction index 3. -/
theorem c6_program_envelope_witness :
    ([1, 1, 0, 131, 0] : List Int).get? 0 = some 1 ∧
    ([1, 1, 0, 131, 0] : List Int).get? 1 = some 1 ∧
    ([1, 1, 0, 131, 0] : List Int).getLast? = some 0 ∧
    (∀ p ∈ c6St.labels, 2 ≤ p.2) ∧
    (∀ p ∈ [(PyVal.s ("loop"), (3 : Nat))], 2 ≤ p.2) :=
  c6_program_envelope c6Toks c6St
    [[PyVal.s ("nop")], [PyVal.s ("nop")], [PyVal.s ("hlt")],
     [PyVal.s ("ldb"), PyVal.i 3], [PyVal.s ("hlt")]]
    [(PyVal.s ("loop"), 3)] [1, 1, 0, 131, 0]
    (by decide) (by decide) (by decide)



/-- Negating the last token after adding a wrapped integer is adding its
negation. -/
theorem negLastTok_addTok (ts : TokState) (ty : String) (n : Int) :
    negLastTok (addTok ts ty (.p n)) = addTok ts ty (.p (-n)) := by
  simp [negLastTok, addTok, List.getLast?_concat, List.dropLast_concat]

/-- The binary digit loop run with the negative flag equals the positive run
with its emitted token negated. -/
theorem binLoop_neg (fuel : Nat) : ∀ (n : Nat) (ts : TokState),
    binLoop fuel false n ts = (binLoop fuel true n ts).map negFlip := by
  induction fuel with
  | zero => intro n ts; rfl
  | succ f ih =>
    intro n ts
    simp only [binLoop]
    cases hz : lcMatch ts.code [Char.ofNat 48] with
    | error e => rfl
    | ok p =>
      obtain ⟨z, lc1⟩ := p
      try dsimp only
      cases z with
      | true =>
        rw [if_pos rfl, if_pos rfl]
        exact ih _ _
      | false =>
        rw [if_neg Bool.false_ne_true, if_neg Bool.false_ne_true]
        cases ho : lcMatch lc1 [Char.ofNat 49] with
        | error e => rfl
        | ok q =>
          obtain ⟨o, lc2⟩ := q
          try dsimp only
          cases o with
          | true =>
            rw [if_pos rfl, if_pos rfl]
            exact ih _ _
          | false =>
            simp [Except.map, negFlip, negLastTok_addTok]

/-- The octal digit loop run with the negative flag equals the positive run with
its emitted token negated. -/
theorem octLoop_neg (fuel : Nat) : ∀ (n : Nat) (ts : TokState),
    octLoop fuel false n ts = (octLoop fuel true n ts).map negFlip := by
  induction fuel with
  | zero => intro n ts; rfl
  | succ f ih =>
    intro n ts
    simp only [octLoop]
    cases hz : lcMatchRange ts.code (Char.ofNat 48) (Char.ofNat 55) with
    | error e => rfl
    | ok p =>
      obtain ⟨och, lc1⟩ := p
      try dsimp only
      cases och with
      | some ch => exact ih _ _
      | none => simp [Except.map, negFlip, negLastTok_addTok]

/-- The decimal digit loop run with the negative flag equals the positive run
with its emitted token negated. -/
theorem decLoop_neg (fuel : Nat) : ∀ (n : Nat) (ts : TokState),
    decLoop fuel false n ts = (decLoop fuel true n ts).map negFlip := by
  induction fuel with
  | zero => intro n ts; rfl
  | succ f ih =>
    intro n ts
    simp only [decLoop]
    cases hz : lcMatchRange ts.code (Char.ofNat 48) (Char.ofNat 57) with
    | error e => rfl
    | ok p =>
      obtain ⟨och, lc1⟩ := p
      try dsimp only
      cases och with
      | some ch => exact ih _ _
      | none => simp [Except.map, negFlip, negLastTok_addTok]

/-- The hex digit loop run with the negative flag equals the positive run with
its emitted token negated. -/
theorem hexLoop_neg (fuel : Nat) : ∀ (n : Nat) (ts : TokState),
    hexLoop fuel false n ts = (hexLoop fuel true n ts).map negFlip := by
  induction fuel with
  | zero => intro n ts; rfl
  | succ f ih =>
    intro n ts
    simp only [hexLoop]
    cases hg : lcGet ts.code 0 with
    | error e => rfl
    | ok ch =>
      try dsimp only
      cases hd : hexDigitVal ch.c with
      | some d =>
        try dsimp only
        cases ha : lcAdvance ts.code 1 with
        | error e => rfl
        | ok lc1 =>
          try dsimp only
          exact ih _ _
      | none => simp [Except.map, negFlip, negLastTok_addTok]

/-- tokenize_bin with the negative flag equals the positive run with its emitted
token negated. -/
theorem tokenizeBin_neg (ts : TokState) :
    tokenizeBin false ts = (tokenizeBin true ts).map negFlip := by
  simp only [tokenizeBin]
  cases h1 : lcMatch ts.code [Char.ofNat 48, Char.ofNat 98] with
  | error e => rfl
  | ok p =>
    obtain ⟨m1, lcA⟩ := p
    try dsimp only
    cases m1 with
    | true =>
      rw [if_pos rfl]
      try dsimp only
      rw [if_neg (not_not_intro rfl), if_neg (not_not_intro rfl)]
      cases h2 : lcMatch lcA [Char.ofNat 48] with
      | error e => rfl
      | ok q =>
        obtain ⟨z, lcC⟩ := q
        try dsimp only
        cases z with
        | true =>
          rw [if_pos rfl, if_pos rfl]
          exact binLoop_neg _ _ _
        | false =>
          rw [if_neg Bool.false_ne_true, if_neg Bool.false_ne_true]
          cases h3 : lcMatch lcC [Char.ofNat 49] with
          | error e => rfl
          | ok r =>
            obtain ⟨o, lcD⟩ := r
            try dsimp only
            cases o with
            | true =>
              rw [if_pos rfl, if_pos rfl]
              exact binLoop_neg _ _ _
            | false =>
              rw [if_neg Bool.false_ne_true, if_neg Bool.false_ne_true]
              rfl
    | false =>
      rw [if_neg Bool.false_ne_true]
      try dsimp only
      cases hB : lcMatch lcA [Char.ofNat 48, Char.ofNat 66] with
      | error e => rfl
      | ok q =>
        obtain ⟨m, lcB⟩ := q
        try dsimp only
        cases m with
        | true =>
          rw [if_neg (not_not_intro rfl), if_neg (not_not_intro rfl)]
          cases h2 : lcMatch lcB [Char.ofNat 48] with
          | error e => rfl
          | ok q2 =>
            obtain ⟨z, lcC⟩ := q2
            try dsimp only
            cases z with
            | true =>
              rw [if_pos rfl, if_pos rfl]
              exact binLoop_neg _ _ _
            | false =>
              rw [if_neg Bool.false_ne_true, if_neg Bool.false_ne_true]
              cases h3 : lcMatch lcC [Char.ofNat 49] with
              | error e => rfl
              | ok r =>
                obtain ⟨o, lcD⟩ := r
                try dsimp only
                cases o with
                | true =>
                  rw [if_pos rfl, if_pos rfl]
                  exact binLoop_neg _ _ _
                | false =>
                  rw [if_neg Bool.false_ne_true, if_neg Bool.false_ne_true]
                  rfl
        | false =>
          have hc : ¬(false = true) := Bool.false_ne_true
          rw [if_pos hc, if_pos hc]
          rfl

/-- tokenize_oct with the negative flag equals the positive run with its emitted
token negated. -/
theorem tokenizeOct_neg (ts : TokState) :
    tokenizeOct false ts = (tokenizeOct true ts).map negFlip := by
  simp only [tokenizeOct]
  cases h1 : lcMatch ts.code [Char.ofNat 48] with
  | error e => rfl
  | ok p =>
    obtain ⟨m, lc1⟩ := p
    try dsimp only
    cases m with
    | true =>
      rw [if_neg (not_not_intro rfl), if_neg (not_not_intro rfl)]
      exact octLoop_neg _ _ _
    | false =>
      have hc : ¬(false = true) := Bool.false_ne_true
      rw [if_pos hc, if_pos hc]
      rfl

/-- tokenize_dec with the negative flag equals the positive run with its emitted
token negated. -/
theorem tokenizeDec_neg (ts : TokState) :
    tokenizeDec false ts = (tokenizeDec true ts).map negFlip := by
  simp only [tokenizeDec]
  cases h1 : lcMatchRange ts.code (Char.ofNat 48) (Char.ofNat 57) with
  | error e => rfl
  | ok p =>
    obtain ⟨och, lc1⟩ := p
    try dsimp only
    cases och with
    | some ch => exact decLoop_neg _ _ _
    | none => rfl

/-- tokenize_hex with the negative flag equals the positive run with its emitted
token negated. -/
theorem tokenizeHex_neg (ts : TokState) :
    tokenizeHex false ts = (tokenizeHex true ts).map negFlip := by
  simp only [tokenizeHex]
  cases h1 : lcMatch ts.code [Char.ofNat 48, Char.ofNat 120] with
  | error e => rfl
  | ok p =>
    obtain ⟨m1, lcA⟩ := p
    try dsimp only
    cases m1 with
    | true =>
      rw [if_pos rfl]
      try dsimp only
      rw [if_neg (not_not_intro rfl), if_neg (not_not_intro rfl)]
      cases hg : lcGet lcA 0 with
      | error e => rfl
      | ok ch =>
        try dsimp only
        cases hd : hexDigitVal ch.c with
        | none => rfl
        | some d =>
          try dsimp only
          cases ha : lcAdvance lcA 1 with
          | error e => rfl
          | ok lc1 =>
            try dsimp only
            exact hexLoop_neg _ _ _
    | false =>
      rw [if_neg Bool.false_ne_true]
      try dsimp only
      cases hB : lcMatch lcA [Char.ofNat 48, Char.ofNat 88] with
      | error e => rfl
      | ok q =>
        obtain ⟨m, lcB⟩ := q
        try dsimp only
        cases m with
        | true =>
          rw [if_neg (not_not_intro rfl), if_neg (not_not_intro rfl)]
          cases hg : lcGet lcB 0 with
          | error e => rfl
          | ok ch =>
            try dsimp only
            cases hd : hexDigitVal ch.c with
            | none => rfl
            | some d =>
              try dsimp only
              cases ha : lcAdvance lcB 1 with
              | error e => rfl
              | ok lc1 =>
                try dsimp only
                exact hexLoop_neg _ _ _
        | false =>
          have hc : ¬(false = true) := Bool.false_ne_true
          rw [if_pos hc, if_pos hc]
          rfl

/-- tokenize_char never reports success: a shape-correct character literal
crashes before its token is added. -/
theorem tokenizeChar_false (ts : TokState) (b : Bool) (ts' : TokState)
    (h : tokenizeChar ts = .ok (b, ts')) : b = false := by
  unfold tokenizeChar at h
  cases h1 : lcMatch ts.code [Char.ofNat 39] with
  | error e => rw [h1] at h; cases h
  | ok p =>
    obtain ⟨m, lc1⟩ := p
    rw [h1] at h; try dsimp only at h
    by_cases hm : m = true
    · rw [if_neg (not_not_intro hm)] at h
      cases h2 : lcGet lc1 1 with
      | error e => rw [h2] at h; cases h
      | ok ch1 =>
        rw [h2] at h; try dsimp only at h
        by_cases hc : ch1.c = Char.ofNat 39
        · rw [if_neg (not_not_intro hc)] at h; cases h
        · rw [if_pos hc] at h; cases h
    · rw [if_pos hm] at h
      cases h
      rfl

/-- The whole sign-independent tail run with the negative flag equals the
positive run with its emitted token negated. -/
theorem tokenizeIntAfterSign_neg (ts : TokState) :
    tokenizeIntAfterSign false ts = (tokenizeIntAfterSign true ts).map negFlip := by
  simp only [tokenizeIntAfterSign]
  rw [tokenizeBin_neg]
  cases hb : tokenizeBin true ts with
  | error e => rfl
  | ok p =>
    obtain ⟨b1, ts2⟩ := p
    cases b1 with
    | true => rfl
    | false =>
      simp only [Except.map, negFlip]
      rw [if_neg Bool.false_ne_true]
      try dsimp only
      rw [tokenizeHex_neg]
      cases hh : tokenizeHex true ts2 with
      | error e => rfl
      | ok q =>
        obtain ⟨b2, ts3⟩ := q
        cases b2 with
        | true => rfl
        | false =>
          simp only [Except.map, negFlip]
          rw [if_neg Bool.false_ne_true]
          try dsimp only
          rw [tokenizeOct_neg]
          cases ho : tokenizeOct true ts3 with
          | error e => rfl
          | ok r =>
            obtain ⟨b3, ts4⟩ := r
            cases b3 with
            | true => rfl
            | false =>
              simp only [Except.map, negFlip]
              rw [if_neg Bool.false_ne_true]
              try dsimp only
              rw [tokenizeDec_neg]
              cases hd : tokenizeDec true ts4 with
              | error e => rfl
              | ok u =>
                obtain ⟨b4, ts5⟩ := u
                cases b4 with
                | true => rfl
                | false =>
                  simp only [Except.map, negFlip]
                  rw [if_neg Bool.false_ne_true]
                  try dsimp only
                  cases hc : tokenizeChar ts5 with
                  | error e => rfl
                  | ok w =>
                    obtain ⟨b5, ts6⟩ := w
                    cases b5 with
                    | true => cases tokenizeChar_false _ _ _ hc
                    | false => rfl

/-- tokenize_int at a minus sign consumes it and behaves as the positive
tokenization of what follows with the emitted integer negated; if no integer
follows, the leftover minus is a syntax error. -/
theorem tokenizeInt_minus (ts : TokState) (lc2 : LinedCode)
    (h : lcMatch ts.code [Char.ofNat 45] = .ok (true, lc2)) :
    tokenizeInt ts =
      match tokenizeIntAfterSign true {ts with code := lc2} with
      | .ok (true, r) => .ok (true, negLastTok r)
      | .ok (false, _) => .error (.compiler ("Syntax"))
      | .error e => .error e := by
  unfold tokenizeInt
  rw [h]
  try dsimp only
  simp only [Bool.not_true]
  rw [tokenizeIntAfterSign_neg]
  cases ha : tokenizeIntAfterSign true {ts with code := lc2} with
  | error e => rfl
  | ok p =>
    obtain ⟨b, r⟩ := p
    cases b with
    | true => rfl
    | false =>
      simp only [Except.map, negFlip]
      rw [if_neg Bool.false_ne_true]
      try dsimp only
      rw [if_pos Bool.false_ne_true]

/-- A wrapped integer token satisfies the token-shape predicate. -/
theorem goodTok_integer (x : Int) : goodTok (("integer" : String), PyVal.p x) := by
  refine ⟨?_, ?_, ?_⟩
  · intro hcontr; cases hcontr
  · right; right; right; right; rfl
  · intro hcontr; simp at hcontr

/-- addtoken preserves the token-shape predicate when the added token satisfies
it. -/
theorem addTok_good (ts : TokState) (ty : String) (v : PyVal)
    (hts : goodToks ts.tokens) (hv : goodTok (ty, v)) :
    goodToks (addTok ts ty v).tokens := by
  intro row hrow t ht
  simp only [addTok] at hrow
  rcases List.mem_append.mp hrow with h1 | h2
  · exact hts row (List.mem_of_mem_dropLast h1) t ht
  · have hr : row = (ts.tokens.getLast?.getD []) ++ [(ty, v)] := by simpa using h2
    subst hr
    rcases List.mem_append.mp ht with h3 | h4
    · cases hl : ts.tokens.getLast? with
      | none => rw [hl] at h3; simp at h3
      | some lrow =>
        rw [hl] at h3
        exact hts lrow (List.mem_of_mem_getLast? hl) t h3
    · have hteq : t = (ty, v) := by simpa using h4
      subst hteq
      exact hv

/-- The binary digit loop only adds well-shaped tokens. -/
theorem binLoop_good (fuel : Nat) : ∀ (pos : Bool) (n : Nat) (ts : TokState)
    (b : Bool) (ts' : TokState), binLoop fuel pos n ts = .ok (b, ts') →
    goodToks ts.tokens → goodToks ts'.tokens := by
  induction fuel with
  | zero => intro pos n ts b ts' h; cases h
  | succ f ih =>
    intro pos n ts b ts' h hts
    simp only [binLoop] at h
    cases hz : lcMatch ts.code [Char.ofNat 48] with
    | error e => rw [hz] at h; cases h
    | ok p =>
      obtain ⟨z, lc1⟩ := p
      rw [hz] at h; try dsimp only at h
      cases z with
      | true => rw [if_pos rfl] at h; exact ih _ _ _ _ _ h hts
      | false =>
        rw [if_neg Bool.false_ne_true] at h
        cases ho : lcMatch lc1 [Char.ofNat 49] with
        | error e => rw [ho] at h; cases h
        | ok q =>
          obtain ⟨o, lc2⟩ := q
          rw [ho] at h; try dsimp only at h
          cases o with
          | true => rw [if_pos rfl] at h; exact ih _ _ _ _ _ h hts
          | false =>
            rw [if_neg Bool.false_ne_true] at h
            cases h
            exact addTok_good _ _ _ hts (goodTok_integer _)

/-- The octal digit loop only adds well-shaped tokens. -/
theorem octLoop_good (fuel : Nat) : ∀ (pos : Bool) (n : Nat) (ts : TokState)
    (b : Bool) (ts' : TokState), octLoop fuel pos n ts = .ok (b, ts') →
    goodToks ts.tokens → goodToks ts'.tokens := by
  induction fuel with
  | zero => intro pos n ts b ts' h; cases h
  | succ f ih =>
    intro pos n ts b ts' h hts
    simp only [octLoop] at h
    cases hz : lcMatchRange ts.code (Char.ofNat 48) (Char.ofNat 55) with
    | error e => rw [hz] at h; cases h
    | ok p =>
      obtain ⟨och, lc1⟩ := p
      rw [hz] at h; try dsimp only at h
      cases och with
      | some ch => exact ih _ _ _ _ _ h hts
      | none =>
        cases h
        exact addTok_good _ _ _ hts (goodTok_integer _)

/-- The decimal digit loop only adds well-shaped tokens. -/
theorem decLoop_good (fuel : Nat) : ∀ (pos : Bool) (n : Nat) (ts : TokState)
    (b : Bool) (ts' : TokState), decLoop fuel pos n ts = .ok (b, ts') →
    goodToks ts.tokens → goodToks ts'.tokens := by
  induction fuel with
  | zero => intro pos n ts b ts' h; cases h
  | succ f ih =>
    intro pos n ts b ts' h hts
    simp only [decLoop] at h
    cases hz : lcMatchRange ts.code (Char.ofNat 48) (Char.ofNat 57) with
    | error e => rw [hz] at h; cases h
    | ok p =>
      obtain ⟨och, lc1⟩ := p
      rw [hz] at h; try dsimp only at h
      cases och with
      | some ch => exact ih _ _ _ _ _ h hts
      | none =>
        cases h
        exact addTok_good _ _ _ hts (goodTok_integer _)

/-- The hex digit loop only adds well-shaped tokens. -/
theorem hexLoop_good (fuel : Nat) : ∀ (pos : Bool) (n : Nat) (ts : TokState)
    (b : Bool) (ts' : TokState), hexLoop fuel pos n ts = .ok (b, ts') →
    goodToks ts.tokens → goodToks ts'.tokens := by
  induction fuel with
  | zero => intro pos n ts b ts' h; cases h
  | succ f ih =>
    intro pos n ts b ts' h hts
    simp only [hexLoop] at h
    cases hg : lcGet ts.code 0 with
    | error e => rw [hg] at h; cases h
    | ok ch =>
      rw [hg] at h; try dsimp only at h
      cases hd : hexDigitVal ch.c with
      | some d =>
        rw [hd] at h; try dsimp only at h
        cases ha : lcAdvance ts.code 1 with
        | error e => rw [ha] at h; cases h
        | ok lc1 =>
          rw [ha] at h; try dsimp only at h
          exact ih _ _ _ _ _ h hts
      | none =>
        rw [hd] at h; try dsimp only at h
        cases h
        exact addTok_good _ _ _ hts (goodTok_integer _)

/-- tokenize_bin only adds well-shaped tokens. -/
theorem tokenizeBin_good (pos : Bool) (ts : TokState) (b : Bool)
    (ts' : TokState) (h : tokenizeBin pos ts = .ok (b, ts'))
    (hts : goodToks ts.tokens) : goodToks ts'.tokens := by
  unfold tokenizeBin at h
  cases h1 : lcMatch ts.code [Char.ofNat 48, Char.ofNat 98] with
  | error e => rw [h1] at h; cases h
  | ok p =>
    obtain ⟨m1, lcA⟩ := p
    rw [h1] at h; try dsimp only at h
    cases hB : (if m1 = true then .ok (true, lcA) else lcMatch lcA [Char.ofNat 48, Char.ofNat 66] :
        Except Err (Bool × LinedCode)) with
    | error e => rw [hB] at h; cases h
    | ok q =>
      obtain ⟨m, lcB⟩ := q
      rw [hB] at h; try dsimp only at h
      cases m with
      | false =>
        rw [if_pos Bool.false_ne_true] at h
        cases h
        exact hts
      | true =>
        rw [if_neg (not_not_intro rfl)] at h
        cases h2 : lcMatch lcB [Char.ofNat 48] with
        | error e => rw [h2] at h; cases h
        | ok q2 =>
          obtain ⟨z, lcC⟩ := q2
          rw [h2] at h; try dsimp only at h
          cases z with
          | true =>
            rw [if_pos rfl] at h
            exact binLoop_good _ _ _ _ _ _ h hts
          | false =>
            rw [if_neg Bool.false_ne_true] at h
            cases h3 : lcMatch lcC [Char.ofNat 49] with
            | error e => rw [h3] at h; cases h
            | ok r =>
              obtain ⟨o, lcD⟩ := r
              rw [h3] at h; try dsimp only at h
              cases o with
              | true =>
                rw [if_pos rfl] at h
                exact binLoop_good _ _ _ _ _ _ h hts
              | false =>
                rw [if_neg Bool.false_ne_true] at h
                cases h

/-- tokenize_oct only adds well-shaped tokens. -/
theorem tokenizeOct_good (pos : Bool) (ts : TokState) (b : Bool)
    (ts' : TokState) (h : tokenizeOct pos ts = .ok (b, ts'))
    (hts : goodToks ts.tokens) : goodToks ts'.tokens := by
  unfold tokenizeOct at h
  cases h1 : lcMatch ts.code [Char.ofNat 48] with
  | error e => rw [h1] at h; cases h
  | ok p =>
    obtain ⟨m, lc1⟩ := p
    rw [h1] at h; try dsimp only at h
    cases m with
    | false =>
      rw [if_pos Bool.false_ne_true] at h
      cases h
      exact hts
    | true =>
      rw [if_neg (not_not_intro rfl)] at h
      exact octLoop_good _ _ _ _ _ _ h hts

/-- tokenize_dec only adds well-shaped tokens. -/
theorem tokenizeDec_good (pos : Bool) (ts : TokState) (b : Bool)
    (ts' : TokState) (h : tokenizeDec pos ts = .ok (b, ts'))
    (hts : goodToks ts.tokens) : goodToks ts'.tokens := by
  unfold tokenizeDec at h
  cases h1 : lcMatchRange ts.code (Char.ofNat 48) (Char.ofNat 57) with
  | error e => rw [h1] at h; cases h
  | ok p =>
    obtain ⟨och, lc1⟩ := p
    rw [h1] at h; try dsimp only at h
    cases och with
    | none => cases h; exact hts
    | some ch => exact decLoop_good _ _ _ _ _ _ h hts

/-- tokenize_hex only adds well-shaped tokens. -/
theorem tokenizeHex_good (pos : Bool) (ts : TokState) (b : Bool)
    (ts' : TokState) (h : tokenizeHex pos ts = .ok (b, ts'))
    (hts : goodToks ts.tokens) : goodToks ts'.tokens := by
  unfold tokenizeHex at h
  cases h1 : lcMatch ts.code [Char.ofNat 48, Char.ofNat 120] with
  | error e => rw [h1] at h; cases h
  | ok p =>
    obtain ⟨m1, lcA⟩ := p
    rw [h1] at h; try dsimp only at h
    cases hB : (if m1 = true then .ok (true, lcA) else lcMatch lcA [Char.ofNat 48, Char.ofNat 88] :
        Except Err (Bool × LinedCode)) with
    | error e => rw [hB] at h; cases h
    | ok q =>
      obtain ⟨m, lcB⟩ := q
      rw [hB] at h; try dsimp only at h
      cases m with
      | false =>
        rw [if_pos Bool.false_ne_true] at h
        cases h
        exact hts
      | true =>
        rw [if_neg (not_not_intro rfl)] at h
        cases hg : lcGet lcB 0 with
        | error e => rw [hg] at h; cases h
        | ok ch =>
          rw [hg] at h; try dsimp only at h
          cases hd : hexDigitVal ch.c with
          | none => rw [hd] at h; cases h
          | some d =>
            rw [hd] at h; try dsimp only at h
            cases ha : lcAdvance lcB 1 with
            | error e => rw [ha] at h; cases h
            | ok lc1 =>
              rw [ha] at h; try dsimp only at h
              exact hexLoop_good _ _ _ _ _ _ h hts

/-- tokenize_char adds no token at all on any successful return. -/
theorem tokenizeChar_good (ts : TokState) (b : Bool) (ts' : TokState)
    (h : tokenizeChar ts = .ok (b, ts')) (hts : goodToks ts.tokens) :
    goodToks ts'.tokens := by
  unfold tokenizeChar at h
  cases h1 : lcMatch ts.code [Char.ofNat 39] with
  | error e => rw [h1] at h; cases h
  | ok p =>
    obtain ⟨m, lc1⟩ := p
    rw [h1] at h; try dsimp only at h
    cases m with
    | false =>
      rw [if_pos Bool.false_ne_true] at h
      cases h
      exact hts
    | true =>
      rw [if_neg (not_not_intro rfl)] at h
      cases h2 : lcGet lc1 1 with
      | error e => rw [h2] at h; cases h
      | ok ch1 =>
        rw [h2] at h; try dsimp only at h
        by_cases hc : ch1.c = Char.ofNat 39
        · rw [if_neg (not_not_intro hc)] at h; cases h
        · rw [if_pos hc] at h; cases h

/-- The sign-independent integer chain only adds well-shaped tokens. -/
theorem tokenizeIntAfterSign_good (pos : Bool) (ts : TokState) (b : Bool)
    (ts' : TokState) (h : tokenizeIntAfterSign pos ts = .ok (b, ts'))
    (hts : goodToks ts.tokens) : goodToks ts'.tokens := by
  unfold tokenizeIntAfterSign at h
  cases h1 : tokenizeBin pos ts with
  | error e => rw [h1] at h; cases h
  | ok p =>
    obtain ⟨b1, ts2⟩ := p
    have g1 := tokenizeBin_good _ _ _ _ h1 hts
    rw [h1] at h; try dsimp only at h
    cases b1 with
    | true => try dsimp only at h; cases h; exact g1
    | false =>
      try dsimp only at h
      cases h2 : tokenizeHex pos ts2 with
      | error e => rw [h2] at h; cases h
      | ok q =>
        obtain ⟨b2, ts3⟩ := q
        have g2 := tokenizeHex_good _ _ _ _ h2 g1
        rw [h2] at h; try dsimp only at h
        cases b2 with
        | true => try dsimp only at h; cases h; exact g2
        | false =>
          try dsimp only at h
          cases h3 : tokenizeOct pos ts3 with
          | error e => rw [h3] at h; cases h
          | ok r =>
            obtain ⟨b3, ts4⟩ := r
            have g3 := tokenizeOct_good _ _ _ _ h3 g2
            rw [h3] at h; try dsimp only at h
            cases b3 with
            | true => try dsimp only at h; cases h; exact g3
            | false =>
              try dsimp only at h
              cases h4 : tokenizeDec pos ts4 with
              | error e => rw [h4] at h; cases h
              | ok u =>
                obtain ⟨b4, ts5⟩ := u
                have g4 := tokenizeDec_good _ _ _ _ h4 g3
                rw [h4] at h; try dsimp only at h
                cases b4 with
                | true => try dsimp only at h; cases h; exact g4
                | false =>
                  try dsimp only at h
                  cases h5 : tokenizeChar ts5 with
                  | error e => rw [h5] at h; cases h
                  | ok w =>
                    obtain ⟨b5, ts6⟩ := w
                    have g5 := tokenizeChar_good _ _ _ h5 g4
                    rw [h5] at h; try dsimp only at h
                    cases b5 with
                    | true => try dsimp only at h; cases h; exact g5
                    | false => cases h; exact g5

/-- tokenize_int only adds well-shaped tokens. -/
theorem tokenizeInt_good (ts : TokState) (b : Bool) (ts' : TokState)
    (h : tokenizeInt ts = .ok (b, ts')) (hts : goodToks ts.tokens) :
    goodToks ts'.tokens := by
  unfold tokenizeInt at h
  cases h1 : lcMatch ts.code [Char.ofNat 45] with
  | error e => rw [h1] at h; cases h
  | ok p =>
    obtain ⟨m, lc1⟩ := p
    rw [h1] at h; try dsimp only at h
    cases h2 : tokenizeIntAfterSign (!m) {ts with code := lc1} with
    | error e => rw [h2] at h; cases h
    | ok q =>
      obtain ⟨b2, ts2⟩ := q
      have g2 := tokenizeIntAfterSign_good _ _ _ _ h2 hts
      rw [h2] at h; try dsimp only at h
      cases b2 with
      | true => try dsimp only at h; cases h; exact g2
      | false =>
        try dsimp only at h
        by_cases hm : (!m) = true
        · rw [if_neg (not_not_intro hm)] at h
          cases h
          exact g2
        · rw [if_pos hm] at h
          cases h

/-- tokenize_label only adds the colon label token, which is well shaped. -/
theorem tokenizeLabel_good (ts : TokState) (b : Bool) (ts' : TokState)
    (h : tokenizeLabel ts = .ok (b, ts')) (hts : goodToks ts.tokens) :
    goodToks ts'.tokens := by
  unfold tokenizeLabel at h
  cases h1 : lcMatch ts.code [Char.ofNat 58] with
  | error e => rw [h1] at h; cases h
  | ok p =>
    obtain ⟨m, lc1⟩ := p
    rw [h1] at h; try dsimp only at h
    cases m with
    | false =>
      rw [if_neg Bool.false_ne_true] at h
      cases h
      exact hts
    | true =>
      rw [if_pos rfl] at h
      cases h
      exact addTok_good _ _ _ hts (by decide)

/-- newline only opens a fresh empty row. -/
theorem tokenizeNewline_good (ts : TokState) (b : Bool) (ts' : TokState)
    (h : tokenizeNewline ts = .ok (b, ts')) (hts : goodToks ts.tokens) :
    goodToks ts'.tokens := by
  unfold tokenizeNewline at h
  cases h1 : lcAdvanceLine ts.code with
  | error e => rw [h1] at h; cases h
  | ok p =>
    obtain ⟨m, lc1⟩ := p
    rw [h1] at h; try dsimp only at h
    cases m with
    | false =>
      rw [if_neg Bool.false_ne_true] at h
      cases h
      exact hts
    | true =>
      rw [if_pos rfl] at h
      cases h
      intro row hrow t ht
      rcases List.mem_append.mp hrow with h2 | h3
      · exact hts row h2 t ht
      · have : row = [] := by simpa using h3
        subst this
        cases ht

/-- The word-collecting loop only extends its accumulator, so the first
character of a word is the character it started from. -/
theorem collectWord_prefix (fuel : Nat) : ∀ (lc : LinedCode) (n i : Nat)
    (acc out : List PChar), collectWord fuel lc n i acc = .ok out →
    ∃ rest, out = acc ++ rest := by
  induction fuel with
  | zero =>
    intro lc n i acc out h
    cases h
    exact ⟨[], by simp⟩
  | succ f ih =>
    intro lc n i acc out h
    simp only [collectWord] at h
    by_cases hi : i < n
    · rw [if_pos hi] at h
      cases hg : lcGet lc (i : Int) with
      | error e => rw [hg] at h; cases h
      | ok ch =>
        rw [hg] at h; try dsimp only at h
        by_cases hal : isPyAlnum ch.c ∨ ch.c = Char.ofNat 95
        · rw [if_pos hal] at h
          obtain ⟨rest, hrest⟩ := ih _ _ _ _ _ h
          exact ⟨ch :: rest, by simp [hrest]⟩
        · rw [if_neg hal] at h
          cases h
          exact ⟨[], by simp⟩
    · rw [if_neg hi] at h
      cases h
      exact ⟨[], by simp⟩

/-- tokenize_keyword_identifier_register only adds keyword, register or
identifier tokens whose text starts with a letter or underscore, never the
minus sign. -/
theorem tokenizeWord_good (ts : TokState) (b : Bool) (ts' : TokState)
    (h : tokenizeWord ts = .ok (b, ts')) (hts : goodToks ts.tokens) :
    goodToks ts'.tokens := by
  unfold tokenizeWord at h
  cases hg : lcGet ts.code 0 with
  | error e => rw [hg] at h; cases h
  | ok w0 =>
    rw [hg] at h; try dsimp only at h
    by_cases hw : ¬(isPyAlpha w0.c ∨ w0.c = Char.ofNat 95)
    · rw [if_pos hw] at h
      cases h
      exact hts
    · rw [if_neg hw] at h
      cases hcw : collectWord (lcLen ts.code + 1) ts.code (lcLen ts.code) 1 [w0] with
      | error e => rw [hcw] at h; cases h
      | ok word =>
        rw [hcw] at h; try dsimp only at h
        cases hadv : lcAdvance ts.code word.length with
        | error e => rw [hadv] at h; cases h
        | ok lc2 =>
          rw [hadv] at h; try dsimp only at h
          obtain ⟨rest, hrest⟩ := collectWord_prefix _ _ _ _ _ _ hcw
          have hw' : isPyAlpha w0.c ∨ w0.c = Char.ofNat 95 := not_not.mp hw
          have hne : (⟨pstrText word⟩ : String) ≠ ("-" : String) := by
            subst hrest
            intro hcontr
            have hd := congrArg String.data hcontr
            simp [pstrText] at hd
            obtain ⟨hc1, -⟩ := hd
            rw [hc1] at hw'
            revert hw'
            decide
          by_cases hk : keywordsList.contains (⟨pstrText word⟩ : String) = true
          · rw [if_pos hk] at h
            cases h
            refine addTok_good _ _ _ hts ⟨?_, ?_, ?_⟩
            · intro hcontr
              apply hne
              injection hcontr
            · left; rfl
            · intro hcontr; simp at hcontr
          · rw [if_neg hk] at h
            by_cases hr : registersList.contains (⟨pstrText word⟩ : String) = true
            · rw [if_pos hr] at h
              cases h
              refine addTok_good _ _ _ hts ⟨?_, ?_, ?_⟩
              · intro hcontr
                apply hne
                injection hcontr
              · right; left; rfl
              · intro hcontr; simp at hcontr
            · rw [if_neg hr] at h
              cases h
              refine addTok_good _ _ _ hts ⟨?_, ?_, ?_⟩
              · intro hcontr
                apply hne
                injection hcontr
              · right; right; left; rfl
              · intro hcontr; simp at hcontr

/-- The tokenizer main loop preserves the token-shape predicate through every
step and returns the accumulated rows. -/
theorem tokLoop_good (fuel : Nat) : ∀ (ts : TokState)
    (rows : List (List (String × PyVal))), tokLoop fuel ts = .ok rows →
    goodToks ts.tokens → goodToks rows := by
  induction fuel with
  | zero => intro ts rows h; cases h
  | succ f ih =>
    intro ts rows h hts
    simp only [tokLoop] at h
    cases h1 : lcHasMore ts.code with
    | error e => rw [h1] at h; cases h
    | ok more =>
      rw [h1] at h; try dsimp only at h
      cases more with
      | false => cases h; exact hts
      | true =>
        cases h2 : lcSkipWs ts.code with
        | error e => rw [h2] at h; cases h
        | ok lc1 =>
          rw [h2] at h; try dsimp only at h
          cases h3 : tokenizeInt {ts with code := lc1} with
          | error e => rw [h3] at h; cases h
          | ok p =>
            obtain ⟨b1, ts2⟩ := p
            have g1 := tokenizeInt_good _ _ _ h3 hts
            rw [h3] at h; try dsimp only at h
            cases b1 with
            | true => exact ih _ _ h g1
            | false =>
              try dsimp only at h
              cases h4 : tokenizeWord ts2 with
              | error e => rw [h4] at h; cases h
              | ok q =>
                obtain ⟨b2, ts3⟩ := q
                have g2 := tokenizeWord_good _ _ _ h4 g1
                rw [h4] at h; try dsimp only at h
                cases b2 with
                | true => exact ih _ _ h g2
                | false =>
                  try dsimp only at h
                  cases h5 : tokenizeLabel ts3 with
                  | error e => rw [h5] at h; cases h
                  | ok r =>
                    obtain ⟨b3, ts4⟩ := r
                    have g3 := tokenizeLabel_good _ _ _ h5 g2
                    rw [h5] at h; try dsimp only at h
                    cases b3 with
                    | true => exact ih _ _ h g3
                    | false =>
                      try dsimp only at h
                      cases h6 : tokenizeNewline ts4 with
                      | error e => rw [h6] at h; cases h
                      | ok u =>
                        obtain ⟨b4, ts5⟩ := u
                        have g4 := tokenizeNewline_good _ _ _ h6 g3
                        rw [h6] at h; try dsimp only at h
                        cases b4 with
                        | true => exact ih _ _ h g4
                        | false => try dsimp only at h; cases h

/-- C8, amended: a minus sign immediately preceding an integer literal IS
consumed as part of the integer token, and the following literal is emitted
as a single integer token carrying the negated value; universally, the lexer
only ever produces keyword, register, identifier, label and integer tokens,
the only label token is the colon, and no token with the value minus -- in
particular no minus symbol token -- is ever produced. -/
theorem c8_minus_consumed_amended :
    (∀ (ts : TokState) (lc2 : LinedCode),
      lcMatch ts.code [Char.ofNat 45] = .ok (true, lc2) →
      tokenizeInt ts =
        match tokenizeIntAfterSign true {ts with code := lc2} with
        | .ok (true, r) => .ok (true, negLastTok r)
        | .ok (false, _) => .error (.compiler ("Syntax"))
        | .error e => .error e) ∧
    (∀ (text : String) (rows : List (List (String × PyVal))),
      tokenizeText text = .ok rows → goodToks rows) := by
  constructor
  · exact tokenizeInt_minus
  · intro text rows h
    unfold tokenizeText at h
    cases hm : mkLinedCode text with
    | error e => rw [hm] at h; cases h
    | ok lc =>
      rw [hm] at h; try dsimp only at h
      refine tokLoop_good _ _ _ h ?_
      intro row hrow t ht
      have hre : row = [] := by simpa using hrow
      subst hre
      cases ht

/-- Witness: on the text -5 the minus at the cursor is consumed, the lexer emits
the single integer token carrying -5 as a wrapped value, and that token is
well shaped. -/
theorem c8_minus_consumed_amended_witness :
    lcMatch c8Ts.code [Char.ofNat 45] = .ok (true, c8Lc2) ∧
    tokenizeInt c8Ts =
      (match tokenizeIntAfterSign true {c8Ts with code := c8Lc2} with
       | .ok (true, r) => .ok (true, negLastTok r)
       | .ok (false, _) => .error (.compiler ("Syntax"))
       | .error e => .error e) ∧
    (tokenizeInt c8Ts).map (fun r => r.2.tokens) =
      .ok [[(("integer" : String), PyVal.p (-5))]] ∧
    goodTok (("integer" : String), PyVal.p (-5)) := by
  have h1 : lcMatch c8Ts.code [Char.ofNat 45] = .ok (true, c8Lc2) := by decide
  have h2 := c8_minus_consumed_amended.1 c8Ts c8Lc2 h1
  have h3 := c8_minus_consumed_amended.2 ("-5")
    [[(("integer" : String), PyVal.p (-5))]] (by decide)
  refine ⟨h1, h2, ?_, ?_⟩
  · rw [h2]; decide
  · exact h3 [(("integer" : String), PyVal.p (-5))] (by simp)
      (("integer" : String), PyVal.p (-5)) (by simp)

end HADLoC
